import Mathlib

/-!
Verification development for the log/trace visualizer core
(`src/utils/traceUtils.ts`): a shallow embedding of the span ingestor,
trace tree builder, log ingestor, log-span correlator and severity
classifier, together with theorems about the embedded definitions.

Modelling conventions:
* JS numbers are modelled as `ℚ` (exact arithmetic; the claims under
  study use values where float rounding is irrelevant).  `NaN` is
  modelled by `Option.none` where it matters (the finiteness filter of
  the duration sampler); numeric coercion of non-numeric strings is not
  modelled, and no claim exercises it.
* JS `undefined`-able strings are `Option String`; JS truthiness of a
  string is "`some s` with `s ≠ ""`".
* Object mutation is rendered by explicit state passing: the span store
  is a `List Span` and the tree builder returns the updated store.
  Object references (children, root) are indices into the store.
* Unbounded recursion over `children` (depth assignment, flattening) is
  rendered with fuel `store.length`; on every input on which the JS
  recursion terminates all paths are duplicate-free, hence of length at
  most `store.length`, so the fuelled version agrees with the source.
-/

namespace TraceViz

/-- A JS runtime value as it occurs in Grafana data-frame columns. -/
inductive Value where
  | num (q : ℚ)
  | str (s : String)
  | bool (b : Bool)
  | null
  | obj (kvs : List (String × Value))
  | arr (elems : List Value)

/-- JS `Number(v)`; `none` models `NaN`.  Parsing of numeric strings is
not modelled (no claim exercises string-typed time columns). -/
def Value.asNum? : Value → Option ℚ
  | .num q => some q
  | .str s => if s = "" then some 0 else none
  | .bool b => some (if b then 1 else 0)
  | .null => some 0
  | .obj _ => none
  | .arr _ => none

/-- JS truthiness of a value. -/
def Value.truthy : Value → Bool
  | .num q => decide (q ≠ 0)
  | .str s => decide (s ≠ "")
  | .bool b => b
  | .null => false
  | .obj _ => true
  | .arr _ => true

/-- JS `String(v)`; numeric formatting is abstracted (no claim compares
frame-derived strings against literal numerals). -/
def Value.toStr : Value → String
  | .num q => toString q
  | .str s => s
  | .bool b => if b then "true" else "false"
  | .null => "null"
  | .obj _ => "[object Object]"
  | .arr _ => ""

/-- JS `a.includes(b)` on strings. -/
def strIncludes (hay pat : String) : Bool :=
  decide (pat.toList <:+: hay.toList)

/-- JS `a || b` on possibly-undefined strings: `b` whenever `a` is
falsy (undefined or empty). -/
def jsOrStr (a b : Option String) : Option String :=
  match a with
  | some s => if s = "" then b else some s
  | none => b

/-- Span record (`types.ts` `Span`, as read and written by
`traceUtils.ts`).  `children` holds indices into the span store
(object references in the source); `children`/`depth` are `none` until
the tree builder writes them. -/
structure Span where
  traceId : String
  spanId : String
  parentSpanId : Option String := none
  operationName : String := "unknown"
  serviceName : String := "unknown"
  startTime : ℚ
  duration : ℚ
  tags : List (String × Value) := []
  children : Option (List Nat) := none
  depth : Option Nat := none

/-- Log record (`types.ts` `LogLine`).  `timestamp` is in nanoseconds. -/
structure LogLine where
  timestamp : ℚ
  line : String
  labels : List (String × Value) := []
  level : Option String := none
  traceId : Option String := none
  spanId : Option String := none

/-- The severity ranking returned by `getLogSeverity`. -/
inductive LogSeverity where
  | error
  | warning
  | info
  | debug
  | none
deriving DecidableEq, Repr

/-- Reconciled trace (`types.ts` `Trace`).  `spans` is the flat span
store (the same, updated, records the builder received); `rootSpan` is
an index into it. -/
structure Trace where
  traceId : String
  spans : List Span
  rootSpan : Option Nat
  startTime : ℚ
  endTime : ℚ
  duration : ℚ
  services : List String

/-- A span augmented with its matched logs (`types.ts` `SpanWithLogs`):
the JS object spread `{...span, logs, isExpanded}`. -/
structure SpanWithLogs where
  span : Span
  logs : List LogLine
  isExpanded : Bool

/-! ## Severity classifier (`getLogSeverity`, lines 34-91) -/

/-- The error test of `getLogSeverity`'s loop body (lines 48-57):
resolved level `error`/`critical`/`fatal`, or message text containing
`error`/`exception`/`critical`/`fatal`/`crit` (case-insensitive). -/
def isErrorLog (lg : LogLine) : Bool :=
  let line := lg.line.toLower
  let lvl := lg.level.map String.toLower
  lvl == some "error" || lvl == some "critical" || lvl == some "fatal" ||
  strIncludes line "error" || strIncludes line "exception" ||
  strIncludes line "critical" || strIncludes line "fatal" ||
  strIncludes line "crit"

/-- The warning test of `getLogSeverity`'s loop body (line 62). -/
def isWarnLog (lg : LogLine) : Bool :=
  let lvl := lg.level.map String.toLower
  lvl == some "warn" || lvl == some "warning" || strIncludes lg.line.toLower "warn"

/-- The info test of `getLogSeverity`'s loop body (line 67). -/
def isInfoLog (lg : LogLine) : Bool :=
  lg.level.map String.toLower == some "info"

/-- The debug test of `getLogSeverity`'s loop body (line 72). -/
def isDebugLog (lg : LogLine) : Bool :=
  let lvl := lg.level.map String.toLower
  lvl == some "debug" || lvl == some "trace"

/-- The scanning loop of `getLogSeverity` (lines 43-90): early return on
an error log, otherwise flag accumulation and priority resolution. -/
def sevScan : List LogLine → Bool → Bool → Bool → LogSeverity
  | [], hasW, hasI, hasD =>
    if hasW then .warning else if hasI then .info else if hasD then .debug else .info
  | lg :: rest, hasW, hasI, hasD =>
    if isErrorLog lg then .error
    else sevScan rest (hasW || isWarnLog lg) (hasI || isInfoLog lg) (hasD || isDebugLog lg)

/-- The embedded `getLogSeverity` (lines 34-91). -/
def getLogSeverity (logs : List LogLine) : LogSeverity :=
  if logs.isEmpty then .none else sevScan logs false false false

/-! ## Log-span matching (`matchLogsToSpans`, lines 509-541) -/

/-- Truthiness of an optional string (JS `if (s)`). -/
def truthyS : Option String → Bool
  | some s => decide (s ≠ "")
  | none => false

/-- The per-(span, log) predicate of `matchLogsToSpans`'s filter
(lines 510-529): direct spanId match first, then the traceId
time-window fallback with a 1000 µs buffer. -/
def logMatchesSpan (span : Span) (lg : LogLine) : Bool :=
  if truthyS lg.spanId && lg.spanId == some span.spanId then true
  else if truthyS lg.traceId && lg.traceId == some span.traceId then
    let logTimeMicro := lg.timestamp / 1000
    let spanStart := span.startTime
    let spanEnd := span.startTime + span.duration
    let buffer : ℚ := 1000
    decide (spanStart - buffer ≤ logTimeMicro ∧ logTimeMicro ≤ spanEnd + buffer)
  else false

/-- Children indices of span `i` in the store (`span.children`,
absent/unset read as empty by the `?.`-guarded consumers). -/
def childIdxsOf (st : List Span) (i : Nat) : List Nat :=
  ((st[i]?).bind Span.children).getD []

/-- The embedded `flattenSpans` (lines 546-558): pre-order flattening of the span
tree into indices, fuelled (see module comment). -/
def flattenAux (st : List Span) : Nat → Nat → List Nat
  | 0, _ => []
  | fuel + 1, i => i :: (childIdxsOf st i).flatMap (flattenAux st fuel)

/-- The embedded `matchLogsToSpans` (lines 483-541): flatten from the root
(`flattenSpans(trace.rootSpan!)`, which yields `[]` for an undefined
root), then pair every reachable span with its filtered logs. -/
def matchLogsToSpans (trace : Trace) (logs : List LogLine) : List SpanWithLogs :=
  let idxs := match trace.rootSpan with
    | some r => flattenAux trace.spans trace.spans.length r
    | none => []
  idxs.filterMap (fun i => (trace.spans[i]?).map (fun sp =>
    { span := sp, logs := logs.filter (fun lg => logMatchesSpan sp lg), isExpanded := false }))

/-! ## Trace tree builder (`buildTraceTree`, lines 264-320)

The source mutates the span objects of its input array (writing
`children` and `depth`) and keeps a `rootSpan` local; here the array is
the store and the single `forEach` of lines 274-290 is rendered as
separate folds over the same sequence — its three concerns (service
set, root selection, child linking) read only fields the loop never
writes, so they do not interact. -/

/-- Lines 266-269: `span.children = []` for every span (the span map is
keyed by `spanId`, which this pass does not touch). -/
def initChildren (spans : List Span) : List Span :=
  spans.map fun sp => { sp with children := some [] }

/-- The embedded `spanMap.get`: `Map.set` is called in input order, so the last span
with a given `spanId` wins.  Returns the index. -/
def spanIdxAux (sid : String) (j : Nat) : List Span → Option Nat
  | [] => none
  | sp :: rest =>
    match spanIdxAux sid (j + 1) rest with
    | some k => some k
    | none => if sp.spanId = sid then some j else none

/-- Index lookup in the span map (last occurrence of `sid`). -/
def spanMapIdx (store : List Span) (sid : String) : Option Nat :=
  spanIdxAux sid 0 store

/-- Line 277: `!span.parentSpanId || span.parentSpanId === ''`. -/
def isRootlessB (sp : Span) : Bool :=
  match sp.parentSpanId with
  | none => true
  | some s => decide (s = "")

/-- An orphan in the sense of lines 283-288: a truthy `parentSpanId`
that resolves to no span. -/
def isOrphanB (store : List Span) (sp : Span) : Bool :=
  !isRootlessB sp && (spanMapIdx store (sp.parentSpanId.getD "")).isNone

/-- Line 282: `parent.children!.push(span)` — append child index `j` to
the children of span `p`. -/
def pushChild (st : List Span) (p j : Nat) : List Span :=
  match st[p]? with
  | none => st
  | some sp => st.set p { sp with children := some ((sp.children.getD []) ++ [j]) }

/-- One step of the linking side of the `forEach` (lines 277-289):
`store0` is the initialized store the loop iterates over and the span
map is built from (child pushes change neither `spanId` nor
`parentSpanId`, so lookups over `store0` are exact). -/
def linkStep (store0 : List Span) (st : List Span) (j : Nat) : List Span :=
  match store0[j]? with
  | none => st
  | some sp =>
    if isRootlessB sp then st
    else
      match spanMapIdx store0 (sp.parentSpanId.getD "") with
      | some p => pushChild st p j
      | none => st

/-- The child-linking result of the `forEach` pass. -/
def linkedStore (spans : List Span) : List Span :=
  (List.range (initChildren spans).length).foldl (linkStep (initChildren spans))
    (initChildren spans)

/-- The root-selection side of the `forEach` (lines 277-289): rootless
spans overwrite the root unconditionally (last wins); an orphan is
promoted only if no root has been established yet. -/
def rootScanAux (store : List Span) (j : Nat) (r : Option Nat) : List Span → Option Nat
  | [] => r
  | sp :: rest =>
    if isRootlessB sp then rootScanAux store (j + 1) (some j) rest
    else if (spanMapIdx store (sp.parentSpanId.getD "")).isSome then
      rootScanAux store (j + 1) r rest
    else rootScanAux store (j + 1) (if r.isNone then some j else r) rest

/-- Root selection including the fallback of lines 292-295: if no root
was found and the input is non-empty, the first span becomes root. -/
def rootSel (store : List Span) : Option Nat :=
  match rootScanAux store 0 none store with
  | some r => some r
  | none => if store.isEmpty then none else some 0

/-- Line 299: write `span.depth = depth` at index `i`. -/
def setDepth (st : List Span) (i : Nat) (d : Nat) : List Span :=
  match st[i]? with
  | none => st
  | some sp => st.set i { sp with depth := some d }

/-- The embedded `calculateDepth` (lines 298-301), fuelled (see module comment):
assign `d` at `i`, then recurse into the children with `d + 1`. -/
def calcDepth : Nat → List Span → Nat → Nat → List Span
  | 0, st, _, _ => st
  | fuel + 1, st, i, d =>
    let st' := setDepth st i d
    (childIdxsOf st' i).foldl (fun s c => calcDepth fuel s c (d + 1)) st'

/-- The span store as it stands after the depth pass (lines 303-305). -/
def builtStore (spans : List Span) : List Span :=
  match rootSel (initChildren spans) with
  | some r => calcDepth (linkedStore spans).length (linkedStore spans) r 0
  | none => linkedStore spans

/-- The embedded `Math.min(...)` over a list known non-empty (the empty default is
never consulted: `buildTraceTree` is only evaluated past its guard on
non-empty stores). -/
def listMinD : List ℚ → ℚ
  | [] => 0
  | x :: xs => xs.foldl min x

/-- The embedded `Math.max(...)` over a list known non-empty. -/
def listMaxD : List ℚ → ℚ
  | [] => 0
  | x :: xs => xs.foldl max x

/-- The `services` set (line 275 + line 318): first-occurrence order,
no duplicates; `serviceName` is never written, so reading the input
sequence is exact. -/
def servicesOf (spans : List Span) : List String :=
  spans.foldl (fun acc sp => if sp.serviceName ∈ acc then acc else acc ++ [sp.serviceName]) []

/-- Line 312: `rootSpan?.traceId || spans[0].traceId`. -/
def traceIdOf (bs : List Span) (root : Option Nat) : String :=
  let rootTid := ((root.bind (fun r => bs[r]?)).map Span.traceId).getD ""
  if rootTid = "" then ((bs.head?).map Span.traceId).getD "" else rootTid

/-- The embedded `buildTraceTree` (lines 264-320).  On the empty sequence the source
dereferences `spans[0]` (undefined) at line 312 and throws; that
failure is `none` here. -/
def buildTraceTree (spans : List Span) : Option Trace :=
  if spans.isEmpty then none
  else some
    { traceId := traceIdOf (builtStore spans) (rootSel (initChildren spans))
      spans := builtStore spans
      rootSpan := rootSel (initChildren spans)
      startTime := listMinD ((builtStore spans).map Span.startTime)
      endTime := listMaxD ((builtStore spans).map fun s => s.startTime + s.duration)
      duration := listMaxD ((builtStore spans).map fun s => s.startTime + s.duration) -
        listMinD ((builtStore spans).map Span.startTime)
      services := servicesOf spans }

/-! ## Data frames and the span ingestor (`parseTraceData`, lines 120-259) -/

/-- A Grafana data-frame field: name, field type (compared against the
string `"time"` at line 349) and column values. -/
structure Field where
  name : String
  ftype : String := ""
  values : List Value := []

/-- A Grafana data frame: fields plus the row count `frame.length`. -/
structure Frame where
  fields : List Field
  length : Nat := 0

/-- The duration-unit hint of `parseTraceData`. -/
inductive DurationUnit where
  | auto
  | microseconds
  | milliseconds
  | seconds
deriving DecidableEq, Repr

/-- Lines 125-139: a frame qualifies as the trace frame when some field
name contains a trace-id pattern and some field name contains a span-id
pattern (case-insensitive substring). -/
def frameQualifies (fr : Frame) : Bool :=
  fr.fields.any (fun f =>
      strIncludes f.name.toLower "traceid" || strIncludes f.name.toLower "trace_id") &&
  fr.fields.any (fun f =>
      strIncludes f.name.toLower "spanid" || strIncludes f.name.toLower "span_id")

/-- Line 125: `frames.find(...)` — the first qualifying frame. -/
def findTraceFrame (frames : List Frame) : Option Frame :=
  frames.find? frameQualifies

/-- Lines 149-151: resolve a field by case-insensitive substring match
against a synonym list, first field wins. -/
def getField (fr : Frame) (names : List String) : Option Field :=
  fr.fields.find? (fun f => names.any (fun n => strIncludes f.name.toLower n.toLower))

/-- The embedded `field.values[i]`; `none` is JS `undefined` (out of range). -/
def valueAt (f : Field) (i : Nat) : Option Value :=
  f.values[i]?

/-- The embedded `Number(field.values[i])` as used at span-construction time
(lines 231-232, 243); `NaN` (unparseable) is collapsed to `0` — no
claim exercises non-numeric time columns. -/
def numAt (f : Field) (i : Nat) : ℚ :=
  ((valueAt f i).bind Value.asNum?).getD 0

/-- The embedded `String(field.values[i])`. -/
def strAt (f : Field) (i : Nat) : String :=
  match valueAt f i with
  | some v => v.toStr
  | none => "undefined"

/-- The embedded `String(field.values[i] || '')`. -/
def strOrEmptyAt (f : Field) (i : Nat) : String :=
  match valueAt f i with
  | some v => if v.truthy then v.toStr else ""
  | none => ""

/-- The embedded `String(field.values[i] || dflt)`. -/
def strOrDefaultAt (f : Field) (i : Nat) (dflt : String) : String :=
  match valueAt f i with
  | some v => if v.truthy then v.toStr else dflt
  | none => dflt

/-- Insert-or-overwrite into a JS-object-like association list (later
assignments to the same key overwrite in place). -/
def objInsert (kvs : List (String × Value)) (k : String) (v : Value) : List (String × Value) :=
  if kvs.any (fun kv => kv.1 = k) then kvs.map (fun kv => if kv.1 = k then (k, v) else kv)
  else kvs ++ [(k, v)]

/-- Key lookup in a JS-object-like association list. -/
def objLookup (kvs : List (String × Value)) (k : String) : Option Value :=
  (kvs.find? (fun kv => kv.1 = k)).map (·.2)

/-- Lines 214-223: tag parsing — an array of key/value records or
a flat object, merged into the tags map (non-object array elements are
skipped; no claim inspects tags). -/
def parseTagsAt (tagsF : Option Field) (i : Nat) : List (String × Value) :=
  match tagsF with
  | none => []
  | some f =>
    match valueAt f i with
    | some (Value.arr elems) =>
      elems.foldl
        (fun acc e =>
          match e with
          | Value.obj kvs =>
            objInsert acc (((objLookup kvs "key").getD Value.null).toStr)
              ((objLookup kvs "value").getD Value.null)
          | _ => acc) []
    | some (Value.obj kvs) => kvs.foldl (fun acc kv => objInsert acc kv.1 kv.2) []
    | _ => []

/-- Insertion of one element into a `≤`-sorted list of rationals. -/
def insertSorted (x : ℚ) : List ℚ → List ℚ
  | [] => [x]
  | y :: ys => if x ≤ y then x :: y :: ys else y :: insertSorted x ys

/-- The embedded `samples.sort((a, b) => a - b)` (line 181): the comparator sort is
modelled as insertion sort — only the sorted order reaches the median. -/
def sortQ (l : List ℚ) : List ℚ :=
  l.foldr insertSorted []

/-- Lines 175-179: up to the first 50 rows, keep finite positive
duration values. -/
def sampleDurations (durField : Field) (len : Nat) : List ℚ :=
  ((List.range (min 50 len)).filterMap (fun i => (valueAt durField i).bind Value.asNum?)).filter
    (fun v => decide (0 < v))

/-- Lines 182-183: median of the sorted samples (average of the two
middle elements for even length). -/
def medianOf (sorted : List ℚ) : ℚ :=
  let mid := sorted.length / 2
  if sorted.length % 2 = 1 then sorted.getD mid 0
  else (sorted.getD (mid - 1) 0 + sorted.getD mid 0) / 2

/-- Lines 185-197: magnitude heuristics mapping the median to the
duration multiplier. -/
def multiplierOfMedian (median : ℚ) : ℚ :=
  if median ≥ 1000000000 then 1 / 1000
  else if median ≥ 1000000 then 1
  else if median ≥ 1000 then 1000
  else 1000000

/-- Lines 173-203: the `auto` branch — multiplier 1 when no sample
qualifies, otherwise the median heuristic. -/
def autoMultiplier (durField : Field) (len : Nat) : ℚ :=
  let samples := sampleDurations durField len
  if samples.isEmpty then 1 else multiplierOfMedian (medianOf (sortQ samples))

/-- Lines 170-208: the duration multiplier for each unit hint. -/
def durationMultiplier (u : DurationUnit) (durField : Field) (len : Nat) : ℚ :=
  match u with
  | .auto => autoMultiplier durField len
  | .microseconds => 1
  | .milliseconds => 1000
  | .seconds => 1000000

/-- Lines 149-235: field resolution and the span-construction loop over
a qualifying frame; `none` when a required field is missing
(line 162). -/
def parseSpansFromFrame (tf : Frame) (u : DurationUnit) : Option (List Span) :=
  let traceIdF := getField tf ["traceid", "trace_id"]
  let spanIdF := getField tf ["spanid", "span_id"]
  let parentF := getField tf ["parentspanid", "parent_span_id", "parentSpanId"]
  let opF := getField tf ["operationname", "operation_name", "name"]
  let svcF := getField tf ["servicename", "service_name", "service"]
  let startF := getField tf ["starttime", "start_time", "startTime"]
  let durF := getField tf ["duration"]
  let tagsF := getField tf ["tags", "servicetags", "service_tags"]
  match traceIdF, spanIdF, startF, durF with
  | some tif, some sif, some stf, some duf =>
    let mult := durationMultiplier u duf tf.length
    some ((List.range tf.length).map fun i =>
      { traceId := strAt tif i
        spanId := strAt sif i
        parentSpanId := parentF.map (fun f => strOrEmptyAt f i)
        operationName := match opF with
          | some f => strOrDefaultAt f i "unknown"
          | none => "unknown"
        serviceName := match svcF with
          | some f => strOrDefaultAt f i "unknown"
          | none => "unknown"
        startTime := numAt stf i * mult
        duration := numAt duf i * mult
        tags := parseTagsAt tagsF i
        children := none
        depth := none })
  | _, _, _, _ => none

/-- Frame selection plus span construction (the part of `parseTraceData`
before the guard of line 252). -/
def parsedSpans (frames : List Frame) (u : DurationUnit) : Option (List Span) :=
  (findTraceFrame frames).bind fun tf => parseSpansFromFrame tf u

/-- The embedded `parseTraceData` (lines 120-259): `null` when no frame qualifies, a
required field is unresolved, or zero spans were parsed; otherwise the
built trace. -/
def parseTraceData (frames : List Frame) (u : DurationUnit) : Option Trace :=
  match parsedSpans frames u with
  | none => none
  | some spans => if spans.isEmpty then none else buildTraceTree spans

/-! ## Log ingestor (`parseLogData`, lines 325-455, and `parseLogLevel`,
lines 460-478) -/

/-- The optional Loki field-name overrides of `parseLogData`. -/
structure LogOptions where
  lokiTraceIdField : Option String := none
  lokiSpanIdField : Option String := none

/-- Lines 344-350: the time field — name containing `time`/`ts`/
`timestamp`, or field type `time`. -/
def timeFieldOf (fr : Frame) : Option Field :=
  fr.fields.find? fun f =>
    strIncludes f.name.toLower "time" || strIncludes f.name.toLower "ts" ||
    strIncludes f.name.toLower "timestamp" || f.ftype = "time"

/-- Lines 353-360: the message field — exact (lower-cased) name among
`line`/`message`/`body`/`content`/`log`. -/
def lineFieldOf (fr : Frame) : Option Field :=
  fr.fields.find? fun f =>
    f.name.toLower = "line" || f.name.toLower = "message" || f.name.toLower = "body" ||
    f.name.toLower = "content" || f.name.toLower = "log"

/-- Line 363: the labels field — name containing `label`. -/
def labelsFieldOf (fr : Frame) : Option Field :=
  fr.fields.find? fun f => strIncludes f.name.toLower "label"

/-- Lines 371-374: the level field — name containing `level` or
`severity`. -/
def levelFieldOf (fr : Frame) : Option Field :=
  fr.fields.find? fun f =>
    strIncludes f.name.toLower "level" || strIncludes f.name.toLower "severity"

/-- The embedded `options?.lokiTraceIdField || 'traceId'` (line 377). -/
def customName (override : Option String) (dflt : String) : String :=
  match override with
  | some s => if s = "" then dflt else s
  | none => dflt

/-- Lines 378-383: the trace-id field — exact custom-name match,
then substring match on the custom name or the built-in synonyms. -/
def traceIdFieldOf (fr : Frame) (custom : String) : Option Field :=
  fr.fields.find? fun f =>
    let n := f.name.toLower
    let c := custom.toLower
    n = c || strIncludes n c || strIncludes n "traceid" || strIncludes n "trace_id"

/-- Lines 387-392: the span-id field, same scheme as the trace-id
field. -/
def spanIdFieldOf (fr : Frame) (custom : String) : Option Field :=
  fr.fields.find? fun f =>
    let n := f.name.toLower
    let c := custom.toLower
    n = c || strIncludes n c || strIncludes n "spanid" || strIncludes n "span_id"

/-- Lines 409-416: the labels object for row `i` (copied when the value
is an object; no claim inspects labels content). -/
def labelsAt (labelsF : Option Field) (i : Nat) : List (String × Value) :=
  match labelsF with
  | none => []
  | some f =>
    match valueAt f i with
    | some (Value.obj kvs) => kvs.foldl (fun acc kv => objInsert acc kv.1 kv.2) []
    | _ => []

/-- A label value read in a JS `||` chain: its string form, as the
chain passes the raw value through. -/
def labelStrRaw (labels : List (String × Value)) (k : String) : Option String :=
  (objLookup labels k).map Value.toStr

/-- Lines 422-430: the id-extraction fallback chain over labels,
rendered with JS `||` semantics. -/
def idFromLabels (labels : List (String × Value)) (k1 k2 k3 custom : String) : Option String :=
  jsOrStr (jsOrStr (jsOrStr (labelStrRaw labels k1) (labelStrRaw labels k2))
      (labelStrRaw labels k3))
    (labelStrRaw labels custom)

/-- The embedded `parseLogLevel` (lines 460-478): keyword classification of the raw
level string (falsy input resolves to `info`). -/
def parseLogLevel (level : Option String) : String :=
  match level with
  | none => "info"
  | some lv =>
    if lv = "" then "info"
    else
      let l := lv.toLower
      if strIncludes l "err" || strIncludes l "fatal" || strIncludes l "critical" then "error"
      else if strIncludes l "warn" then "warn"
      else if strIncludes l "debug" then "debug"
      else if strIncludes l "trace" then "trace"
      else "info"

/-- Lines 408-450: construct the log line of row `i` of a frame whose
time and message fields resolved. -/
def logLineAt (timeF lineF : Field) (labelsF levelF traceF spanF : Option Field)
    (ctid csid : String) (i : Nat) : LogLine :=
  let labels := labelsAt labelsF i
  let levelRaw : Option String :=
    match levelF.bind (fun f => valueAt f i) with
    | some v => if v.truthy then some v.toStr else labelStrRaw labels "level"
    | none => labelStrRaw labels "level"
  let tid0 := traceF.map fun f => strOrEmptyAt f i
  let tid :=
    match tid0 with
    | some s => if s = "" then idFromLabels labels "trace_id" "traceId" "traceid" ctid else tid0
    | none => idFromLabels labels "trace_id" "traceId" "traceid" ctid
  let sid0 := spanF.map fun f => strOrEmptyAt f i
  let sid :=
    match sid0 with
    | some s => if s = "" then idFromLabels labels "span_id" "spanId" "spanid" csid else sid0
    | none => idFromLabels labels "span_id" "spanId" "spanid" csid
  { timestamp := numAt timeF i
    line := strOrEmptyAt lineF i
    labels := labels
    level := some (parseLogLevel levelRaw)
    traceId := tid
    spanId := sid }

/-- Insertion into a timestamp-sorted log list. -/
def insertLogSorted (x : LogLine) : List LogLine → List LogLine
  | [] => [x]
  | y :: ys => if x.timestamp ≤ y.timestamp then x :: y :: ys else y :: insertLogSorted x ys

/-- Line 454: `logs.sort((a, b) => a.timestamp - b.timestamp)`,
modelled as insertion sort — only the order matters downstream. -/
def sortLogs (l : List LogLine) : List LogLine :=
  l.foldr insertLogSorted []

/-- The embedded `parseLogData` (lines 325-455): frames with zero rows or without a
resolvable time or message field are skipped; remaining frames
contribute one log per row, and the concatenation is sorted by
timestamp. -/
def parseLogData (frames : List Frame) (opts : LogOptions) : List LogLine :=
  let ctid := customName opts.lokiTraceIdField "traceId"
  let csid := customName opts.lokiSpanIdField "spanId"
  let logs := frames.foldl
    (fun acc fr =>
      if fr.length = 0 then acc
      else
        match timeFieldOf fr, lineFieldOf fr with
        | some tf, some lf =>
          acc ++ (List.range fr.length).map
            (logLineAt tf lf (labelsFieldOf fr) (levelFieldOf fr)
              (traceIdFieldOf fr ctid) (spanIdFieldOf fr csid) ctid csid)
        | _, _ => acc) []
  sortLogs logs

/-! ## Concrete inputs and auxiliary definitions for the theorems -/

/-- A span at `startTime = 10000` µs with `duration = 5000` µs, used to
exercise the window boundary. -/
def bufSpan : Span :=
  { traceId := "t", spanId := "a", startTime := 10000, duration := 5000 }

/-- A log at 9,000,000 ns — converted, exactly 1000 µs before
`bufSpan.startTime`. -/
def bufLogIn : LogLine :=
  { timestamp := 9000000, line := "", traceId := some "t" }

/-- A log at 8,999,000 ns — converted, exactly 1001 µs before
`bufSpan.startTime`. -/
def bufLogOut : LogLine :=
  { timestamp := 8999000, line := "", traceId := some "t" }

/-- An empty frame whose field names qualify it as the trace frame. -/
def emptyTraceFrame : Frame :=
  { fields := [{ name := "traceID" }, { name := "spanID" }], length := 0 }

/-- A one-row frame qualifying as the trace frame but with no duration
field. -/
def noDurationFrame : Frame :=
  { fields := [{ name := "traceID", values := [Value.str "t"] },
      { name := "spanID", values := [Value.str "a"] },
      { name := "startTime", values := [Value.num 1] }],
    length := 1 }

/-- A frame with rows but neither a time nor a message field. -/
def noTimeLineFrame : Frame :=
  { fields := [{ name := "foo", values := [Value.str "x"] }], length := 1 }

/-- The start-time column of the C2 witness frame. -/
def stfW : Field := { name := "startTime", values := [Value.num 10, Value.num 20] }

/-- The duration column of the C2 witness frame: samples `[4500, 4501]`
have median `4500.5`, in the milliseconds band. -/
def dufW : Field := { name := "duration", values := [Value.num 4500, Value.num 4501] }

/-- A two-row qualifying trace frame for the C2 witness. -/
def frW : Frame :=
  { fields := [{ name := "traceID", values := [Value.str "t", Value.str "t"] },
      { name := "spanID", values := [Value.str "a", Value.str "b"] }, stfW, dufW],
    length := 2 }

/-- Forget the `depth` field of a span. -/
def eraseDepth (sp : Span) : Span := { sp with depth := none }

/-- Forget both builder-written fields (`children` and `depth`). -/
def eraseDerived (sp : Span) : Span := { sp with children := none, depth := none }

/-- Forget the `children` field of a span. -/
def eraseChildren (sp : Span) : Span := { sp with children := none }

/-- The built form of the single witness span (children and depth
written by the builder). -/
def c8span : Span :=
  { traceId := "t", spanId := "a", startTime := 0, duration := 1,
    children := some [], depth := some 0 }

/-- A concrete trace over `c8span` for the C8 witness. -/
def c8trace : Trace :=
  { traceId := "t", spans := [c8span], rootSpan := some 0, startTime := 0, endTime := 1,
    duration := 1, services := ["unknown"] }

/-- A log that direct-matches `c8span`. -/
def c8log : LogLine := { timestamp := 0, line := "x", spanId := some "a" }

/-- The annotated view `matchLogsToSpans` produces for `c8span`. -/
def c8swl : SpanWithLogs := { span := c8span, logs := [c8log], isExpanded := false }

/-- The raw one-span input list of the C8 witness. -/
def c8input : List Span := [{ traceId := "t", spanId := "a", startTime := 0, duration := 1 }]

/-- The two-span input of the C6 witness: starts 5 and 20, ends 15 and
25. -/
def c6spans : List Span :=
  [{ traceId := "t", spanId := "a", startTime := 5, duration := 10 },
   { traceId := "t", spanId := "b", startTime := 20, duration := 5 }]

/-- Index (from offset `j`) of the last rootless span of a list. -/
def lastRootlessIdx (j : Nat) : List Span → Option Nat
  | [] => none
  | sp :: rest =>
    match lastRootlessIdx (j + 1) rest with
    | some k => some k
    | none => if isRootlessB sp then some j else none

/-- Index (from offset `j`) of the first orphan span of a list,
orphanhood judged against `store`. -/
def firstOrphanIdx (store : List Span) (j : Nat) : List Span → Option Nat
  | [] => none
  | sp :: rest =>
    if isOrphanB store sp then some j else firstOrphanIdx store (j + 1) rest

/-- Two rootless spans for the C3 witness (last-wins tie-break). -/
def c3rootless : List Span :=
  [{ traceId := "t", spanId := "a", startTime := 0, duration := 1 },
   { traceId := "t", spanId := "b", startTime := 0, duration := 1 }]

/-- A two-cycle of found parents for the C3 witness (no rootless span,
no orphan — first-span fallback). -/
def c3cycle : List Span :=
  [{ traceId := "t", spanId := "a", parentSpanId := some "b", startTime := 0, duration := 1 },
   { traceId := "t", spanId := "b", parentSpanId := some "a", startTime := 0, duration := 1 }]

/-- A single orphan span for the C3 witness. -/
def c3x : Span :=
  { traceId := "t", spanId := "x", parentSpanId := some "zz", startTime := 0, duration := 1 }

/-- The singleton orphan input of the C3 witness. -/
def c3orphan : List Span := [c3x]

/-- The `depth` field stored at index `i`. -/
def depthOf (st : List Span) (i : Nat) : Option Nat :=
  (st[i]?).bind Span.depth

/-- Reachability at a recorded distance through a children relation:
`ReachD ch r x k` means `x` lies `k` child-steps below `r`. -/
inductive ReachD (ch : Nat → List Nat) (r : Nat) : Nat → Nat → Prop where
  | refl : ReachD ch r r 0
  | step {i k j} : ReachD ch r i k → j ∈ ch i → ReachD ch r j (k + 1)

/-- The linking condition of the `forEach` pass, as a predicate: span
`j` of `store0` carries a truthy parent id that the span map resolves
to index `i`. -/
def childTest (store0 : List Span) (j i : Nat) : Bool :=
  match store0[j]? with
  | some sp =>
    match sp.parentSpanId with
    | some ps => !decide (ps = "") && (spanMapIdx store0 ps == some i)
    | none => false
  | none => false

/-- Two spans, the second a child of the first, for the C7 witness. -/
def c7spans : List Span :=
  [{ traceId := "t", spanId := "a", startTime := 0, duration := 10 },
   { traceId := "t", spanId := "b", parentSpanId := some "a", startTime := 2, duration := 3 }]

/-! ## Theorems -/

/-- The severity scan returns `error` as soon as any log passes the
error test, whatever the accumulated flags. -/
theorem sevScan_err (logs : List LogLine) :
    ∀ hasW hasI hasD, (∃ lg ∈ logs, isErrorLog lg = true) →
      sevScan logs hasW hasI hasD = .error := by
  induction logs with
  | nil =>
    intro _ _ _ h
    obtain ⟨lg, hmem, _⟩ := h
    exact absurd hmem (List.not_mem_nil lg)
  | cons a rest ih =>
    intro hasW hasI hasD h
    obtain ⟨lg, hmem, herr⟩ := h
    by_cases ha : isErrorLog a = true
    · simp [sevScan, ha]
    · rcases List.mem_cons.mp hmem with heq | hrest
      · exact absurd (heq ▸ herr) ha
      · simp only [sevScan, if_neg ha]
        exact ih _ _ _ ⟨lg, hrest, herr⟩

/-- The severity scan on logs matching no category leaves every flag
untouched and resolves from the accumulated flags (default `info`). -/
theorem sevScan_flags (logs : List LogLine) :
    ∀ hasW hasI hasD,
      (∀ lg ∈ logs, isErrorLog lg = false ∧ isWarnLog lg = false ∧ isInfoLog lg = false ∧
        isDebugLog lg = false) →
      sevScan logs hasW hasI hasD =
        (if hasW then .warning else if hasI then .info else if hasD then .debug else .info) := by
  induction logs with
  | nil => intro _ _ _ _; rfl
  | cons a rest ih =>
    intro hasW hasI hasD h
    obtain ⟨he, hw, hi, hd⟩ := h a (List.mem_cons_self a rest)
    simp only [sevScan, he, hw, hi, hd, Bool.or_false, Bool.false_eq_true, if_false]
    exact ih _ _ _ fun lg hm => h lg (List.mem_cons_of_mem a hm)

/-- C5: `getLogSeverity` returns `error` whenever some log has resolved
level error/critical/fatal or message text containing one of the error
keywords (case-insensitively), regardless of the other logs; on the
two-log input `[{level:"info"}, {line containing "exception"}]` it
returns `error`; on the empty list it returns `none`; on a non-empty
list matching no category it returns `info`. -/
theorem C5_getLogSeverity_spec :
    (∀ logs, (∃ lg ∈ logs, isErrorLog lg = true) → getLogSeverity logs = .error) ∧
    getLogSeverity [{ timestamp := 0, line := "ok", level := some "info" },
      { timestamp := 0, line := "contains exception" }] = .error ∧
    getLogSeverity [] = .none ∧
    (∀ logs, logs ≠ [] →
      (∀ lg ∈ logs, isErrorLog lg = false ∧ isWarnLog lg = false ∧ isInfoLog lg = false ∧
        isDebugLog lg = false) →
      getLogSeverity logs = .info) := by
  refine ⟨?_, by with_unfolding_all rfl, rfl, ?_⟩
  · intro logs h
    have hne : logs ≠ [] := by
      obtain ⟨lg, hmem, _⟩ := h
      rintro rfl; exact absurd hmem (List.not_mem_nil lg)
    rw [getLogSeverity, if_neg (by simpa [List.isEmpty_iff] using hne)]
    exact sevScan_err logs false false false h
  · intro logs hne h
    rw [getLogSeverity, if_neg (by simpa [List.isEmpty_iff] using hne)]
    rw [sevScan_flags logs false false false h]
    rfl

/-- Witness for C5: a singleton error-keyword log classifies as
`error`, and a singleton no-category log classifies as `info`. -/
theorem C5_witness :
    getLogSeverity [{ timestamp := 0, line := "fatal: disk gone" }] = .error ∧
    getLogSeverity [{ timestamp := 0, line := "hello world", level := some "unspecified" }] =
      .info := by
  constructor
  · exact C5_getLogSeverity_spec.1 _ ⟨_, List.mem_singleton_self _, by with_unfolding_all decide⟩
  · exact C5_getLogSeverity_spec.2.2.2 _ (by simp)
      (fun lg hm => by
        rw [List.mem_singleton.mp hm]
        exact ⟨by with_unfolding_all decide, by with_unfolding_all decide,
          by with_unfolding_all decide, by with_unfolding_all decide⟩)

/-- C4: under the time-window fallback (log with falsy `spanId` and a
truthy `traceId` equal to the span's), the log matches iff its
timestamp divided by 1000 lies in the closed interval
`[startTime - 1000, startTime + duration + 1000]`. -/
theorem C4_window_iff (span : Span) (lg : LogLine)
    (hsp : lg.spanId = none ∨ lg.spanId = some "")
    (htid : lg.traceId = some span.traceId) (hne : span.traceId ≠ "") :
    logMatchesSpan span lg = true ↔
      span.startTime - 1000 ≤ lg.timestamp / 1000 ∧
        lg.timestamp / 1000 ≤ span.startTime + span.duration + 1000 := by
  have hfalsy : (truthyS lg.spanId && lg.spanId == some span.spanId) = false := by
    rcases hsp with h | h <;> simp [truthyS, h]
  have htruthy : (truthyS lg.traceId && lg.traceId == some span.traceId) = true := by
    simp [truthyS, htid, hne]
  simp only [logMatchesSpan, hfalsy, htruthy, Bool.false_eq_true, if_false, if_true,
    decide_eq_true_eq]

/-- Witness for C4: the log exactly 1000 µs before the span start is
included, the one exactly 1001 µs before is excluded. -/
theorem C4_witness :
    logMatchesSpan bufSpan bufLogIn = true ∧ logMatchesSpan bufSpan bufLogOut = false := by
  constructor
  · exact (C4_window_iff bufSpan bufLogIn (Or.inl rfl) rfl (by decide)).mpr
      (by norm_num [bufSpan, bufLogIn])
  · have h := C4_window_iff bufSpan bufLogOut (Or.inl rfl) rfl (by decide)
    have hout : ¬(bufSpan.startTime - 1000 ≤ bufLogOut.timestamp / 1000 ∧
        bufLogOut.timestamp / 1000 ≤ bufSpan.startTime + bufSpan.duration + 1000) := by
      norm_num [bufSpan, bufLogOut]
    cases hb : logMatchesSpan bufSpan bufLogOut
    · rfl
    · exact absurd (h.mp hb) hout

/-- C1 (the code at the failing input): a log carrying the non-empty
`spanId` `"s2"`, which matches no span, is nevertheless attached to
span `"s1"` through the traceId time-window test — the window test of
`matchLogsToSpans` is not guarded by the absence of a log `spanId`. -/
theorem C1_spanid_log_window_attached :
    ((buildTraceTree [{ traceId := "t", spanId := "s1", startTime := 0, duration := 100 }]).map
        fun t =>
          (matchLogsToSpans t
              [{ timestamp := 50000, line := "boom", traceId := some "t",
                 spanId := some "s2" }]).map
            SpanWithLogs.logs) =
      some [[{ timestamp := 50000, line := "boom", traceId := some "t", spanId := some "s2" }]] := by
  with_unfolding_all rfl

/-- A qualifying frame still yields no spans when any of the four
required fields is unresolved. -/
theorem parseSpansFromFrame_none (tf : Frame) (u : DurationUnit)
    (h : getField tf ["traceid", "trace_id"] = none ∨ getField tf ["spanid", "span_id"] = none ∨
      getField tf ["starttime", "start_time", "startTime"] = none ∨
      getField tf ["duration"] = none) :
    parseSpansFromFrame tf u = none := by
  cases hA : getField tf ["traceid", "trace_id"] <;>
    cases hB : getField tf ["spanid", "span_id"] <;>
      cases hC : getField tf ["starttime", "start_time", "startTime"] <;>
        cases hD : getField tf ["duration"] <;>
          simp_all [parseSpansFromFrame]

/-- C9: `parseTraceData` returns no trace (rather than failing) when no
frame qualifies, when the qualifying frame has zero rows, or when a
required field is unresolved; `parseLogData` skips every frame with
zero rows or without a resolvable time or message field, returning the
empty sequence when all frames are skipped. -/
theorem C9_no_result_paths :
    (∀ frames u, findTraceFrame frames = none → parseTraceData frames u = none) ∧
    (∀ frames u tf, findTraceFrame frames = some tf → tf.length = 0 →
      parseTraceData frames u = none) ∧
    (∀ frames u tf, findTraceFrame frames = some tf →
      (getField tf ["traceid", "trace_id"] = none ∨ getField tf ["spanid", "span_id"] = none ∨
        getField tf ["starttime", "start_time", "startTime"] = none ∨
        getField tf ["duration"] = none) →
      parseTraceData frames u = none) ∧
    (∀ frames opts,
      (∀ fr ∈ frames, fr.length = 0 ∨ timeFieldOf fr = none ∨ lineFieldOf fr = none) →
      parseLogData frames opts = []) := by
  refine ⟨?_, ?_, ?_, ?_⟩
  · intro frames u h
    simp [parseTraceData, parsedSpans, h]
  · intro frames u tf hfind hlen
    cases hA : getField tf ["traceid", "trace_id"] <;>
      cases hB : getField tf ["spanid", "span_id"] <;>
        cases hC : getField tf ["starttime", "start_time", "startTime"] <;>
          cases hD : getField tf ["duration"] <;>
            simp [parseTraceData, parsedSpans, hfind, parseSpansFromFrame, hA, hB, hC, hD, hlen]
  · intro frames u tf hfind hmiss
    simp [parseTraceData, parsedSpans, hfind, parseSpansFromFrame_none tf u hmiss]
  · intro frames opts hskip
    have key : ∀ (frs : List Frame) (acc : List LogLine),
        (∀ fr ∈ frs, fr.length = 0 ∨ timeFieldOf fr = none ∨ lineFieldOf fr = none) →
        frs.foldl
          (fun acc fr =>
            if fr.length = 0 then acc
            else
              match timeFieldOf fr, lineFieldOf fr with
              | some tf, some lf =>
                acc ++ (List.range fr.length).map
                  (logLineAt tf lf (labelsFieldOf fr) (levelFieldOf fr)
                    (traceIdFieldOf fr (customName opts.lokiTraceIdField "traceId"))
                    (spanIdFieldOf fr (customName opts.lokiSpanIdField "spanId"))
                    (customName opts.lokiTraceIdField "traceId")
                    (customName opts.lokiSpanIdField "spanId"))
              | _, _ => acc) acc = acc := by
      intro frs
      induction frs with
      | nil => intro acc _; rfl
      | cons fr rest ih =>
        intro acc h
        have hstep :
            (if fr.length = 0 then acc
              else
                match timeFieldOf fr, lineFieldOf fr with
                | some tf, some lf =>
                  acc ++ (List.range fr.length).map
                    (logLineAt tf lf (labelsFieldOf fr) (levelFieldOf fr)
                      (traceIdFieldOf fr (customName opts.lokiTraceIdField "traceId"))
                      (spanIdFieldOf fr (customName opts.lokiSpanIdField "spanId"))
                      (customName opts.lokiTraceIdField "traceId")
                      (customName opts.lokiSpanIdField "spanId"))
                | _, _ => acc) = acc := by
          rcases h fr (List.mem_cons_self fr rest) with h0 | h0 | h0
          · simp [h0]
          · cases hl : lineFieldOf fr <;> simp [h0, hl]
          · cases ht : timeFieldOf fr <;> simp [h0, ht]
        rw [List.foldl_cons, hstep]
        exact ih acc fun fr hm => h fr (List.mem_cons_of_mem _ hm)
    rw [parseLogData]
    rw [key frames [] hskip]
    rfl

/-- Witness for C9: the four no-result paths at concrete inputs. -/
theorem C9_witness :
    parseTraceData [] DurationUnit.auto = none ∧
    parseTraceData [emptyTraceFrame] DurationUnit.auto = none ∧
    parseTraceData [noDurationFrame] DurationUnit.auto = none ∧
    parseLogData [{ fields := [], length := 0 }, noTimeLineFrame] {} = [] := by
  refine ⟨?_, ?_, ?_, ?_⟩
  · exact C9_no_result_paths.1 [] DurationUnit.auto (by with_unfolding_all rfl)
  · exact C9_no_result_paths.2.1 [emptyTraceFrame] DurationUnit.auto emptyTraceFrame
      (by with_unfolding_all rfl) rfl
  · exact C9_no_result_paths.2.2.1 [noDurationFrame] DurationUnit.auto noDurationFrame
      (by with_unfolding_all rfl) (Or.inr (Or.inr (Or.inr (by with_unfolding_all rfl))))
  · refine C9_no_result_paths.2.2.2 _ {} ?_
    intro fr hm
    rcases List.mem_cons.mp hm with h | h
    · exact Or.inl (by rw [h])
    · rw [List.mem_singleton.mp h]
      exact Or.inr (Or.inl (by with_unfolding_all rfl))

/-- C2: with the `auto` hint, the multiplier is derived from the median
of up to 50 sampled positive duration values — median ≥ 1e9 gives
1/1000, ≥ 1e6 gives 1, ≥ 1e3 gives 1000, otherwise 1,000,000 (with the
claim's concrete medians mapped accordingly) — and that same multiplier
scales every parsed span's `startTime` and `duration`. -/
theorem C2_auto_duration_unit :
    (∀ med : ℚ,
      (1000000000 ≤ med → multiplierOfMedian med = 1 / 1000) ∧
      (1000000 ≤ med → med < 1000000000 → multiplierOfMedian med = 1) ∧
      (1000 ≤ med → med < 1000000 → multiplierOfMedian med = 1000) ∧
      (med < 1000 → multiplierOfMedian med = 1000000)) ∧
    multiplierOfMedian 1500000000 = 1 / 1000 ∧
    multiplierOfMedian 5000000 = 1 ∧
    multiplierOfMedian 4500 = 1000 ∧
    multiplierOfMedian 3 = 1000000 ∧
    (∀ f len, (sampleDurations f len).length ≤ 50 ∧ ∀ v ∈ sampleDurations f len, 0 < v) ∧
    (∀ frames spans i, parsedSpans frames DurationUnit.auto = some spans → i < spans.length →
      ∀ tf stf duf, findTraceFrame frames = some tf →
        getField tf ["starttime", "start_time", "startTime"] = some stf →
        getField tf ["duration"] = some duf →
        (spans.map Span.startTime)[i]? = some (numAt stf i * autoMultiplier duf tf.length) ∧
        (spans.map Span.duration)[i]? = some (numAt duf i * autoMultiplier duf tf.length)) := by
  refine ⟨?_, by norm_num [multiplierOfMedian], by norm_num [multiplierOfMedian],
    by norm_num [multiplierOfMedian], by norm_num [multiplierOfMedian], ?_, ?_⟩
  · intro med
    refine ⟨fun h => ?_, fun h1 h2 => ?_, fun h1 h2 => ?_, fun h => ?_⟩
    · rw [multiplierOfMedian, if_pos h]
    · rw [multiplierOfMedian, if_neg (not_le.mpr h2), if_pos h1]
    · rw [multiplierOfMedian, if_neg (not_le.mpr (h2.trans (by norm_num))),
        if_neg (not_le.mpr h2), if_pos h1]
    · rw [multiplierOfMedian, if_neg (not_le.mpr (h.trans (by norm_num))),
        if_neg (not_le.mpr (h.trans (by norm_num))), if_neg (not_le.mpr h)]
  · intro f len
    constructor
    · calc (sampleDurations f len).length
          ≤ ((List.range (min 50 len)).filterMap
              (fun i => (valueAt f i).bind Value.asNum?)).length := List.length_filter_le _ _
        _ ≤ (List.range (min 50 len)).length := List.length_filterMap_le _ _
        _ = min 50 len := List.length_range _
        _ ≤ 50 := min_le_left _ _
    · intro v hv
      have := List.of_mem_filter hv
      exact of_decide_eq_true this
  · intro frames spans i hp hi tf stf duf hfind hst hdu
    rw [parsedSpans, hfind, Option.some_bind] at hp
    cases hA : getField tf ["traceid", "trace_id"] <;>
      cases hB : getField tf ["spanid", "span_id"] <;>
        simp only [parseSpansFromFrame, hA, hB, hst, hdu] at hp <;>
        cases hp
    have hlen : i < tf.length := by simpa using hi
    constructor <;>
      simp [List.getElem?_map, List.getElem?_range, hlen, durationMultiplier]

/-- Witness for C2: the threshold branches at concrete medians, the
sample bound at a concrete column, and the multiplier 1000 (detected
from median 4500.5) applied to the first parsed span of `frW`. -/
theorem C2_witness :
    multiplierOfMedian 2000000000 = 1 / 1000 ∧
    (sampleDurations dufW 2).length ≤ 50 ∧
    ((parsedSpans [frW] DurationUnit.auto).map
        fun spans => ((spans.map Span.startTime)[0]?, (spans.map Span.duration)[0]?)) =
      some (some 10000, some 4500000) := by
  refine ⟨(C2_auto_duration_unit.1 2000000000).1 (by norm_num), ?_, ?_⟩
  · exact (C2_auto_duration_unit.2.2.2.2.2.1 dufW 2).1
  · have hsome : (parsedSpans [frW] DurationUnit.auto).isSome = true := by
      with_unfolding_all rfl
    obtain ⟨spans, hs⟩ := Option.isSome_iff_exists.mp hsome
    have hlen : spans.length = 2 := by
      have h2 : (parsedSpans [frW] DurationUnit.auto).map List.length = some 2 := by
        with_unfolding_all rfl
      rw [hs] at h2
      simpa using h2
    have h := C2_auto_duration_unit.2.2.2.2.2.2 [frW] spans 0 hs (by omega)
      frW stfW dufW (by with_unfolding_all rfl) (by with_unfolding_all rfl)
      (by with_unfolding_all rfl)
    have e1 : numAt stfW 0 * autoMultiplier dufW frW.length = 10000 := by
      with_unfolding_all rfl
    have e2 : numAt dufW 0 * autoMultiplier dufW frW.length = 4500000 := by
      with_unfolding_all rfl
    rw [hs]
    simp only [Option.map_some']
    rw [h.1, h.2, e1, e2]

/-! ## Structural lemmas about the tree builder -/

/-- The embedded `setDepth` changes nothing but the `depth` field. -/
theorem map_eraseDepth_setDepth (st : List Span) (i d : Nat) :
    (setDepth st i d).map eraseDepth = st.map eraseDepth := by
  rw [setDepth]
  cases hi : st[i]? with
  | none => rfl
  | some sp =>
    rw [List.map_set]
    apply List.ext_getElem?
    intro n
    rw [List.getElem?_set]
    by_cases hn : i = n
    · subst hn
      have hlt : i < st.length := (List.getElem?_eq_some_iff.mp hi).1
      rw [if_pos rfl, if_pos (by simpa using hlt), List.getElem?_map, hi]
      rfl
    · rw [if_neg hn]

/-- The embedded `calcDepth` changes nothing but `depth` fields. -/
theorem map_eraseDepth_calcDepth :
    ∀ (fuel : Nat) (st : List Span) (i d : Nat),
      (calcDepth fuel st i d).map eraseDepth = st.map eraseDepth := by
  intro fuel
  induction fuel with
  | zero => intro st i d; rfl
  | succ fuel ih =>
    intro st i d
    have haux : ∀ (cs : List Nat) (s : List Span),
        (cs.foldl (fun s c => calcDepth fuel s c (d + 1)) s).map eraseDepth =
          s.map eraseDepth := by
      intro cs
      induction cs with
      | nil => intro s; rfl
      | cons c cs ihc => intro s; rw [List.foldl_cons, ihc, ih]
    rw [calcDepth, haux, map_eraseDepth_setDepth]

/-- The embedded `pushChild` changes nothing but the `children` field. -/
theorem map_eraseChildren_pushChild (st : List Span) (p j : Nat) :
    (pushChild st p j).map eraseChildren = st.map eraseChildren := by
  rw [pushChild]
  cases hp : st[p]? with
  | none => rfl
  | some sp =>
    rw [List.map_set]
    apply List.ext_getElem?
    intro n
    rw [List.getElem?_set]
    by_cases hn : p = n
    · subst hn
      have hlt : p < st.length := (List.getElem?_eq_some_iff.mp hp).1
      rw [if_pos rfl, if_pos (by simpa using hlt), List.getElem?_map, hp]
      rfl
    · rw [if_neg hn]

/-- The linking fold changes nothing but `children` fields. -/
theorem map_eraseChildren_linkFold (store0 : List Span) :
    ∀ (l : List Nat) (st : List Span),
      (l.foldl (linkStep store0) st).map eraseChildren = st.map eraseChildren := by
  intro l
  induction l with
  | nil => intro st; rfl
  | cons j rest ih =>
    intro st
    rw [List.foldl_cons, ih]
    cases h0 : store0[j]? with
    | none => simp [linkStep, h0]
    | some sp =>
      simp only [linkStep, h0]
      by_cases hr : isRootlessB sp = true
      · rw [if_pos hr]
      · rw [if_neg hr]
        cases hm : spanMapIdx store0 (sp.parentSpanId.getD "") with
        | none => rfl
        | some p => exact map_eraseChildren_pushChild st p j

/-- The embedded `initChildren` changes nothing but the `children` field. -/
theorem map_eraseChildren_initChildren (spans : List Span) :
    (initChildren spans).map eraseChildren = spans.map eraseChildren := by
  rw [initChildren, List.map_map]; rfl

/-- The embedded `builtStore` changes nothing but the builder-written fields:
projected through `eraseDerived`, the store equals the input. -/
theorem map_eraseDerived_builtStore (spans : List Span) :
    (builtStore spans).map eraseDerived = spans.map eraseDerived := by
  have hcomp1 : ∀ st : List Span, st.map eraseDerived = (st.map eraseDepth).map eraseChildren := by
    intro st; rw [List.map_map]; rfl
  have hcomp2 : ∀ st : List Span, st.map eraseDerived = (st.map eraseChildren).map eraseDepth := by
    intro st; rw [List.map_map]; rfl
  have hlink : (linkedStore spans).map eraseDerived = spans.map eraseDerived := by
    rw [hcomp2, linkedStore, map_eraseChildren_linkFold, map_eraseChildren_initChildren,
      ← hcomp2]
  rw [builtStore]
  cases rootSel (initChildren spans) with
  | none => exact hlink
  | some r =>
    rw [hcomp1, map_eraseDepth_calcDepth, ← hcomp1]
    exact hlink

/-- The shape of a successful `buildTraceTree` result. -/
theorem buildTraceTree_some (spans : List Span) (t : Trace)
    (h : buildTraceTree spans = some t) :
    spans ≠ [] ∧ t.spans = builtStore spans ∧ t.rootSpan = rootSel (initChildren spans) ∧
      t.startTime = listMinD ((builtStore spans).map Span.startTime) ∧
      t.endTime = listMaxD ((builtStore spans).map fun s => s.startTime + s.duration) ∧
      t.duration = t.endTime - t.startTime := by
  rw [buildTraceTree] at h
  by_cases he : spans.isEmpty
  · rw [if_pos he] at h; cases h
  · rw [if_neg he] at h
    obtain rfl := (Option.some.inj h).symm
    exact ⟨by simpa [List.isEmpty_iff] using he, rfl, rfl, rfl, rfl, rfl⟩

/-- C8 counterexample: `buildTraceTree` does not leave the ingested
span records unchanged — on a single rootless span it writes
`depth := 0` into the record it was given (the returned `Trace.spans`
are the input records with `children`/`depth` written in place). -/
theorem C8_counterexample :
    ((buildTraceTree [{ traceId := "t", spanId := "a", startTime := 0, duration := 1 }]).map
        fun t => t.spans.map Span.depth) ≠
      some ([({ traceId := "t", spanId := "a", startTime := 0, duration := 1 } : Span)].map
        Span.depth) := by
  with_unfolding_all decide

/-- C8 as amended: `buildTraceTree` mutates exactly the builder-owned
fields — every other span field survives unchanged (`eraseDerived`
projection) — and `matchLogsToSpans` builds fresh `SpanWithLogs` views
whose `logs` are the unmodified input log records. -/
theorem C8_mutation_confined :
    (∀ spans t, buildTraceTree spans = some t →
      t.spans.map eraseDerived = spans.map eraseDerived) ∧
    (∀ trace logs swl lg, swl ∈ matchLogsToSpans trace logs → lg ∈ swl.logs → lg ∈ logs) := by
  constructor
  · intro spans t h
    rw [(buildTraceTree_some spans t h).2.1]
    exact map_eraseDerived_builtStore spans
  · intro trace logs swl lg hmem hlg
    rw [matchLogsToSpans] at hmem
    obtain ⟨i, _, heq⟩ := List.mem_filterMap.mp hmem
    obtain ⟨sp, _, hsp⟩ := Option.map_eq_some'.mp heq
    have : swl.logs = logs.filter fun l => logMatchesSpan sp l := by rw [← hsp]
    rw [this] at hlg
    exact List.mem_of_mem_filter hlg

/-- Witness for C8 (amended): on a concrete one-span input the
`eraseDerived` projections agree, and a directly-matched log is drawn
from the input log list. -/
theorem C8_witness :
    ((buildTraceTree c8input).map fun t => t.spans.map eraseDerived) =
      some (c8input.map eraseDerived) ∧
    c8log ∈ ([c8log] : List LogLine) := by
  constructor
  · have hsome : (buildTraceTree c8input).isSome = true := by
      with_unfolding_all rfl
    obtain ⟨t, ht⟩ := Option.isSome_iff_exists.mp hsome
    rw [ht, Option.map_some']
    rw [C8_mutation_confined.1 _ t ht]
  · have hml : matchLogsToSpans c8trace [c8log] = [c8swl] := by with_unfolding_all rfl
    have h1 : c8swl ∈ matchLogsToSpans c8trace [c8log] := by
      rw [hml]; exact List.mem_singleton_self _
    have h2 : c8log ∈ c8swl.logs := by
      rw [show c8swl.logs = [c8log] from rfl]; exact List.mem_singleton_self _
    exact C8_mutation_confined.2 c8trace [c8log] c8swl c8log h1 h2

/-- C10: `buildTraceTree` fails (dereferences `spans[0]`, undefined)
exactly on the empty sequence; on every non-empty sequence it returns a
trace with a defined root; and `parseTraceData` only reaches the call
once at least one span was parsed, so the failure branch is unreachable
from it. -/
theorem C10_empty_precondition :
    buildTraceTree [] = none ∧
    (∀ spans, spans ≠ [] →
      ∃ t, buildTraceTree spans = some t ∧ t.rootSpan.isSome = true) ∧
    (∀ frames u spans, parsedSpans frames u = some spans → spans.isEmpty = false →
      ∃ t, parseTraceData frames u = some t) := by
  have hroot : ∀ spans : List Span, spans ≠ [] →
      (rootSel (initChildren spans)).isSome = true := by
    intro spans hne
    rw [rootSel]
    cases rootScanAux (initChildren spans) 0 none (initChildren spans) with
    | some r => rfl
    | none =>
      have : (initChildren spans).isEmpty = false := by
        cases spans with
        | nil => exact absurd rfl hne
        | cons a l => rfl
      rw [this]
      rfl
  have hmain : ∀ spans : List Span, spans ≠ [] →
      ∃ t, buildTraceTree spans = some t ∧ t.rootSpan.isSome = true := by
    intro spans hne
    have he : spans.isEmpty = false := by
      cases spans with
      | nil => exact absurd rfl hne
      | cons a l => rfl
    refine ⟨_, by rw [buildTraceTree, he]; rfl, ?_⟩
    exact hroot spans hne
  refine ⟨rfl, hmain, ?_⟩
  intro frames u spans hp he
  have hne : spans ≠ [] := by
    cases spans with
    | nil => cases he
    | cons a l => simp
  obtain ⟨t, ht, _⟩ := hmain spans hne
  refine ⟨t, ?_⟩
  simp only [parseTraceData, hp, he, Bool.false_eq_true, if_false]
  exact ht

/-- Witness for C10: a concrete non-empty input yields a trace with a
defined root, and the concrete `frW` frames drive `parseTraceData` to a
trace. -/
theorem C10_witness :
    ((buildTraceTree [{ traceId := "t", spanId := "a", startTime := 0, duration := 1 }]).map
        fun t => t.rootSpan.isSome) = some true ∧
    (parseTraceData [frW] DurationUnit.auto).isSome = true := by
  constructor
  · obtain ⟨t, ht, hr⟩ := C10_empty_precondition.2.1
      [{ traceId := "t", spanId := "a", startTime := 0, duration := 1 }] (by simp)
    rw [ht, Option.map_some', hr]
  · have hsome : (parsedSpans [frW] DurationUnit.auto).isSome = true := by
      with_unfolding_all rfl
    obtain ⟨spans, hs⟩ := Option.isSome_iff_exists.mp hsome
    have hne : spans.isEmpty = false := by
      have h2 : (parsedSpans [frW] DurationUnit.auto).map List.isEmpty = some false := by
        with_unfolding_all rfl
      rw [hs] at h2
      simpa using h2
    obtain ⟨t, ht⟩ := C10_empty_precondition.2.2 [frW] DurationUnit.auto spans hs hne
    rw [ht]
    rfl

/-- The `min`-fold is a lower bound of the start value and the list. -/
theorem foldl_min_le (xs : List ℚ) : ∀ x : ℚ, ∀ y ∈ x :: xs, xs.foldl min x ≤ y := by
  induction xs with
  | nil =>
    intro x y hy
    rw [List.mem_singleton.mp hy]
    exact le_refl x
  | cons a l ih =>
    intro x y hy
    rw [List.foldl_cons]
    rcases List.mem_cons.mp hy with rfl | hy'
    · exact (ih (min y a) _ (List.mem_cons_self _ _)).trans (min_le_left y a)
    rcases List.mem_cons.mp hy' with rfl | hy''
    · exact (ih (min x y) _ (List.mem_cons_self _ _)).trans (min_le_right x y)
    · exact ih (min x a) y (List.mem_cons_of_mem _ hy'')

/-- The `min`-fold is attained by the start value or a list element. -/
theorem foldl_min_mem (xs : List ℚ) : ∀ x : ℚ, xs.foldl min x ∈ x :: xs := by
  induction xs with
  | nil => intro x; exact List.mem_singleton_self x
  | cons a l ih =>
    intro x
    rw [List.foldl_cons]
    rcases List.mem_cons.mp (ih (min x a)) with h1 | h1
    · rw [h1]
      rcases min_choice x a with hc | hc <;> rw [hc]
      · exact List.mem_cons_self _ _
      · exact List.mem_cons_of_mem _ (List.mem_cons_self _ _)
    · exact List.mem_cons_of_mem _ (List.mem_cons_of_mem _ h1)

/-- The `max`-fold is an upper bound of the start value and the list. -/
theorem foldl_max_ge (xs : List ℚ) : ∀ x : ℚ, ∀ y ∈ x :: xs, y ≤ xs.foldl max x := by
  induction xs with
  | nil =>
    intro x y hy
    rw [List.mem_singleton.mp hy]
    exact le_refl x
  | cons a l ih =>
    intro x y hy
    rw [List.foldl_cons]
    rcases List.mem_cons.mp hy with rfl | hy'
    · exact (le_max_left y a).trans (ih (max y a) _ (List.mem_cons_self _ _))
    rcases List.mem_cons.mp hy' with rfl | hy''
    · exact (le_max_right x y).trans (ih (max x y) _ (List.mem_cons_self _ _))
    · exact ih (max x a) y (List.mem_cons_of_mem _ hy'')

/-- The `max`-fold is attained by the start value or a list element. -/
theorem foldl_max_mem (xs : List ℚ) : ∀ x : ℚ, xs.foldl max x ∈ x :: xs := by
  induction xs with
  | nil => intro x; exact List.mem_singleton_self x
  | cons a l ih =>
    intro x
    rw [List.foldl_cons]
    rcases List.mem_cons.mp (ih (max x a)) with h1 | h1
    · rw [h1]
      rcases max_choice x a with hc | hc <;> rw [hc]
      · exact List.mem_cons_self _ _
      · exact List.mem_cons_of_mem _ (List.mem_cons_self _ _)
    · exact List.mem_cons_of_mem _ (List.mem_cons_of_mem _ h1)

/-- The embedded `listMinD` on a non-empty list is an attained minimum. -/
theorem listMinD_spec (l : List ℚ) (hne : l ≠ []) :
    listMinD l ∈ l ∧ ∀ y ∈ l, listMinD l ≤ y := by
  cases l with
  | nil => exact absurd rfl hne
  | cons x xs => exact ⟨foldl_min_mem xs x, fun y hy => foldl_min_le xs x y hy⟩

/-- The embedded `listMaxD` on a non-empty list is an attained maximum. -/
theorem listMaxD_spec (l : List ℚ) (hne : l ≠ []) :
    listMaxD l ∈ l ∧ ∀ y ∈ l, y ≤ listMaxD l := by
  cases l with
  | nil => exact absurd rfl hne
  | cons x xs => exact ⟨foldl_max_mem xs x, fun y hy => foldl_max_ge xs x y hy⟩

/-- The built store keeps every span's `startTime`. -/
theorem builtStore_startTimes (spans : List Span) :
    (builtStore spans).map Span.startTime = spans.map Span.startTime := by
  calc (builtStore spans).map Span.startTime
      = ((builtStore spans).map eraseDerived).map Span.startTime := by rw [List.map_map]; rfl
    _ = (spans.map eraseDerived).map Span.startTime := by rw [map_eraseDerived_builtStore]
    _ = spans.map Span.startTime := by rw [List.map_map]; rfl

/-- The built store keeps every span's end time. -/
theorem builtStore_endTimes (spans : List Span) :
    ((builtStore spans).map fun s => s.startTime + s.duration) =
      spans.map fun s => s.startTime + s.duration := by
  calc ((builtStore spans).map fun s => s.startTime + s.duration)
      = ((builtStore spans).map eraseDerived).map (fun s => s.startTime + s.duration) := by
        rw [List.map_map]; rfl
    _ = (spans.map eraseDerived).map (fun s => s.startTime + s.duration) := by
        rw [map_eraseDerived_builtStore]
    _ = spans.map fun s => s.startTime + s.duration := by rw [List.map_map]; rfl

/-- C6: for every non-empty span sequence, the built trace's
`startTime` is the attained minimum of span start times over the full
flat set, `endTime` the attained maximum of `startTime + duration`, and
`duration = endTime - startTime`. -/
theorem C6_trace_timing (spans : List Span) (t : Trace) (h : buildTraceTree spans = some t) :
    (∃ sp ∈ spans, t.startTime = sp.startTime) ∧
    (∀ sp ∈ spans, t.startTime ≤ sp.startTime) ∧
    (∃ sp ∈ spans, t.endTime = sp.startTime + sp.duration) ∧
    (∀ sp ∈ spans, sp.startTime + sp.duration ≤ t.endTime) ∧
    t.duration = t.endTime - t.startTime := by
  obtain ⟨hne, _, _, hst, het, hdur⟩ := buildTraceTree_some spans t h
  rw [builtStore_startTimes] at hst
  rw [builtStore_endTimes] at het
  have hnes : spans.map Span.startTime ≠ [] := by
    cases spans with
    | nil => exact absurd rfl hne
    | cons a l => simp
  have hnee : (spans.map fun s => s.startTime + s.duration) ≠ [] := by
    cases spans with
    | nil => exact absurd rfl hne
    | cons a l => simp
  obtain ⟨hmin_mem, hmin_le⟩ := listMinD_spec _ hnes
  obtain ⟨hmax_mem, hmax_ge⟩ := listMaxD_spec _ hnee
  refine ⟨?_, ?_, ?_, ?_, hdur⟩
  · obtain ⟨sp, hsp, he⟩ := List.mem_map.mp hmin_mem
    exact ⟨sp, hsp, by rw [hst, ← he]⟩
  · intro sp hsp
    rw [hst]
    exact hmin_le _ (List.mem_map_of_mem _ hsp)
  · obtain ⟨sp, hsp, he⟩ := List.mem_map.mp hmax_mem
    exact ⟨sp, hsp, by rw [het, ← he]⟩
  · intro sp hsp
    rw [het]
    exact hmax_ge _ (List.mem_map_of_mem _ hsp)

/-- Witness for C6: on `c6spans` the built trace satisfies the
duration identity and the min/max bounds at the concrete spans. -/
theorem C6_witness :
    ((buildTraceTree c6spans).map fun t =>
        decide (t.duration = t.endTime - t.startTime ∧ t.startTime ≤ 5 ∧ 25 ≤ t.endTime)) =
      some true := by
  have hsome : (buildTraceTree c6spans).isSome = true := by with_unfolding_all rfl
  obtain ⟨t, ht⟩ := Option.isSome_iff_exists.mp hsome
  obtain ⟨_, hbnd, _, hend, hdur⟩ := C6_trace_timing c6spans t ht
  rw [ht, Option.map_some']
  refine congrArg some (decide_eq_true ⟨hdur, ?_, ?_⟩)
  · have := hbnd _ (List.mem_cons_self _ _)
    simpa [c6spans] using this
  · have := hend _ (List.mem_cons_of_mem _ (List.mem_cons_self _ _))
    have h25 : ((20 : ℚ) + 5) = 25 := by norm_num
    simpa [c6spans, h25] using this

/-! ## Root-selection characterization -/

/-- The root scan resolves to: the last rootless index if any, else the
incoming accumulator, else the first orphan index. -/
theorem rootScanAux_char (store : List Span) :
    ∀ (l : List Span) (j : Nat) (r : Option Nat),
      rootScanAux store j r l =
        match lastRootlessIdx j l with
        | some k => some k
        | none =>
          match r with
          | some x => some x
          | none => firstOrphanIdx store j l := by
  intro l
  induction l with
  | nil =>
    intro j r
    cases r <;> rfl
  | cons sp rest ih =>
    intro j r
    by_cases hR : isRootlessB sp = true
    · rw [rootScanAux, if_pos hR, ih]
      cases hA : lastRootlessIdx (j + 1) rest <;>
        simp [lastRootlessIdx, hA, hR]
    · have hR' : isRootlessB sp = false := by
        cases h : isRootlessB sp
        · rfl
        · exact absurd h hR
      cases hM : spanMapIdx store (sp.parentSpanId.getD "") with
      | some p =>
        have hO : isOrphanB store sp = false := by
          rw [isOrphanB, hR', hM]
          rfl
        rw [rootScanAux, if_neg hR, if_pos (by rw [hM]; rfl), ih]
        cases hA : lastRootlessIdx (j + 1) rest <;>
          simp [lastRootlessIdx, firstOrphanIdx, hA, hR', hO]
      | none =>
        have hO : isOrphanB store sp = true := by
          rw [isOrphanB, hR', hM]
          rfl
        rw [rootScanAux, if_neg hR, if_neg (by rw [hM]; simp), ih]
        cases hA : lastRootlessIdx (j + 1) rest <;>
          cases r <;>
            simp [lastRootlessIdx, firstOrphanIdx, hA, hR', hO]

/-- Initializing `children` does not change span-id lookups. -/
theorem spanIdxAux_initChildren (sid : String) :
    ∀ (l : List Span) (j : Nat), spanIdxAux sid j (initChildren l) = spanIdxAux sid j l := by
  intro l
  induction l with
  | nil => intro j; rfl
  | cons sp rest ih =>
    intro j
    show spanIdxAux sid j ({ sp with children := some [] } :: initChildren rest) = _
    rw [spanIdxAux, spanIdxAux, ih]

/-- Initializing `children` does not change the span map. -/
theorem spanMapIdx_initChildren (spans : List Span) (sid : String) :
    spanMapIdx (initChildren spans) sid = spanMapIdx spans sid :=
  spanIdxAux_initChildren sid spans 0

/-- Orphanhood against the initialized store equals orphanhood against
the raw input. -/
theorem isOrphanB_initChildren (spans : List Span) (sp : Span) :
    isOrphanB (initChildren spans) sp = isOrphanB spans sp := by
  rw [isOrphanB, isOrphanB, spanMapIdx_initChildren]

/-- Initializing `children` does not move the last rootless index. -/
theorem lastRootlessIdx_initChildren :
    ∀ (l : List Span) (j : Nat), lastRootlessIdx j (initChildren l) = lastRootlessIdx j l := by
  intro l
  induction l with
  | nil => intro j; rfl
  | cons sp rest ih =>
    intro j
    show lastRootlessIdx j ({ sp with children := some [] } :: initChildren rest) = _
    rw [lastRootlessIdx, lastRootlessIdx, ih]
    rfl

/-- Initializing `children` does not move the first orphan index. -/
theorem firstOrphanIdx_initChildren (spans : List Span) :
    ∀ (l : List Span) (j : Nat),
      firstOrphanIdx (initChildren spans) j (initChildren l) = firstOrphanIdx spans j l := by
  intro l
  induction l with
  | nil => intro j; rfl
  | cons sp rest ih =>
    intro j
    show firstOrphanIdx (initChildren spans) j
        ({ sp with children := some [] } :: initChildren rest) = _
    rw [firstOrphanIdx, firstOrphanIdx, ih]
    have : isOrphanB (initChildren spans) { sp with children := some [] } =
        isOrphanB spans sp := by
      rw [isOrphanB_initChildren]
      rfl
    rw [this]

/-- Root selection, characterized over the raw input spans. -/
theorem rootSel_char (spans : List Span) :
    rootSel (initChildren spans) =
      match lastRootlessIdx 0 spans with
      | some k => some k
      | none =>
        match firstOrphanIdx spans 0 spans with
        | some k => some k
        | none => if spans.isEmpty then none else some 0 := by
  rw [rootSel, rootScanAux_char, lastRootlessIdx_initChildren, firstOrphanIdx_initChildren]
  have hie : (initChildren spans).isEmpty = spans.isEmpty := by
    cases spans <;> rfl
  cases hA : lastRootlessIdx 0 spans
  · cases hB : firstOrphanIdx spans 0 spans
    · rw [hie]
    · rfl
  · rfl

/-- If every span is rootless, the last rootless index is the last
position. -/
theorem lastRootlessIdx_all :
    ∀ (l : List Span) (j : Nat), l ≠ [] → (∀ sp ∈ l, isRootlessB sp = true) →
      lastRootlessIdx j l = some (j + l.length - 1) := by
  intro l
  induction l with
  | nil => intro j h; exact absurd rfl h
  | cons sp rest ih =>
    intro j _ hall
    rw [lastRootlessIdx]
    cases rest with
    | nil =>
      rw [show lastRootlessIdx (j + 1) ([] : List Span) = none from rfl,
        hall sp (List.mem_cons_self _ _)]
      simp
    | cons b l2 =>
      rw [ih (j + 1) (by simp) (fun x hx => hall x (List.mem_cons_of_mem _ hx))]
      exact congrArg some (by simp only [List.length_cons]; omega)

/-- If no span is rootless, there is no last rootless index. -/
theorem lastRootlessIdx_none :
    ∀ (l : List Span) (j : Nat), (∀ sp ∈ l, isRootlessB sp = false) →
      lastRootlessIdx j l = none := by
  intro l
  induction l with
  | nil => intro j _; rfl
  | cons sp rest ih =>
    intro j hall
    rw [lastRootlessIdx, ih (j + 1) (fun x hx => hall x (List.mem_cons_of_mem _ hx)),
      hall sp (List.mem_cons_self _ _)]
    rfl

/-- A last rootless index points at a rootless span. -/
theorem lastRootlessIdx_some :
    ∀ (l : List Span) (j k : Nat), lastRootlessIdx j l = some k →
      j ≤ k ∧ ∃ sp, l[k - j]? = some sp ∧ isRootlessB sp = true := by
  intro l
  induction l with
  | nil => intro j k h; cases h
  | cons sp rest ih =>
    intro j k h
    rw [lastRootlessIdx] at h
    cases hA : lastRootlessIdx (j + 1) rest with
    | some k' =>
      rw [hA] at h
      have hk : k' = k := Option.some.inj h
      obtain ⟨hle, sp', hget, hroot⟩ := ih (j + 1) k' hA
      refine ⟨by omega, sp', ?_, hroot⟩
      rw [← hk, show k' - j = (k' - (j + 1)) + 1 from by omega]
      simpa using hget
    | none =>
      rw [hA] at h
      by_cases hR : isRootlessB sp = true
      · rw [if_pos hR] at h
        obtain rfl := Option.some.inj h
        exact ⟨le_refl _, sp, by simp, hR⟩
      · rw [if_neg hR] at h
        cases h

/-- If no span is an orphan, there is no first orphan index. -/
theorem firstOrphanIdx_none (store : List Span) :
    ∀ (l : List Span) (j : Nat), (∀ sp ∈ l, isOrphanB store sp = false) →
      firstOrphanIdx store j l = none := by
  intro l
  induction l with
  | nil => intro j _; rfl
  | cons sp rest ih =>
    intro j hall
    rw [firstOrphanIdx, hall sp (List.mem_cons_self _ _)]
    simp only [Bool.false_eq_true, if_false]
    exact ih (j + 1) fun x hx => hall x (List.mem_cons_of_mem _ hx)

/-- A first orphan index points at an orphan span and is minimal. -/
theorem firstOrphanIdx_some (store : List Span) :
    ∀ (l : List Span) (j k : Nat), firstOrphanIdx store j l = some k →
      j ≤ k ∧ (∃ sp, l[k - j]? = some sp ∧ isOrphanB store sp = true) ∧
        ∀ i, j ≤ i → i < k → ∀ sp, l[i - j]? = some sp → isOrphanB store sp = false := by
  intro l
  induction l with
  | nil => intro j k h; cases h
  | cons sp rest ih =>
    intro j k h
    rw [firstOrphanIdx] at h
    by_cases hO : isOrphanB store sp = true
    · rw [if_pos hO] at h
      obtain rfl := Option.some.inj h
      refine ⟨le_refl _, ⟨sp, by simp, hO⟩, ?_⟩
      intro i hji hik
      omega
    · rw [if_neg hO] at h
      obtain ⟨hle, hat, hmin⟩ := ih (j + 1) k h
      have hO' : isOrphanB store sp = false := by
        cases hb : isOrphanB store sp
        · rfl
        · exact absurd hb hO
      refine ⟨by omega, ?_, ?_⟩
      · obtain ⟨sp', hget, horp⟩ := hat
        refine ⟨sp', ?_, horp⟩
        rw [show k - j = (k - (j + 1)) + 1 from by omega]
        simpa using hget
      · intro i hji hik sp' hget
        by_cases hij : i = j
        · subst hij
          rw [show i - i = 0 from by omega] at hget
          simp at hget
          rw [← hget]
          exact hO'
        · have hj1 : j + 1 ≤ i := by omega
          refine hmin i hj1 hik sp' ?_
          rw [show i - (j + 1) = (i - j) - 1 from by omega]
          rw [show i - j = ((i - j) - 1) + 1 from by omega] at hget
          simpa using hget

/-- No last rootless index means no span was rootless. -/
theorem lastRootlessIdx_eq_none :
    ∀ (l : List Span) (j : Nat), lastRootlessIdx j l = none →
      ∀ sp ∈ l, isRootlessB sp = false := by
  intro l
  induction l with
  | nil => intro j _ sp hsp; exact absurd hsp (List.not_mem_nil sp)
  | cons a rest ih =>
    intro j h sp hsp
    rw [lastRootlessIdx] at h
    cases hA : lastRootlessIdx (j + 1) rest with
    | some k => rw [hA] at h; cases h
    | none =>
      rw [hA] at h
      rcases List.mem_cons.mp hsp with rfl | hmem
      · by_cases hb : isRootlessB sp = true
        · rw [if_pos hb] at h; cases h
        · cases hbb : isRootlessB sp with
          | false => rfl
          | true => exact absurd hbb hb
      · exact ih (j + 1) hA sp hmem

/-- C3: with no declared parent anywhere, the last such span (in input
order) becomes the root; an orphan root implies no rootless span exists
and no earlier orphan exists (promotion only with no established root);
with neither rootless spans nor orphans, the first span becomes root. -/
theorem C3_root_selection (spans : List Span) (t : Trace)
    (h : buildTraceTree spans = some t) :
    ((∀ sp ∈ spans, isRootlessB sp = true) → t.rootSpan = some (spans.length - 1)) ∧
    (∀ jr spR, t.rootSpan = some jr → spans[jr]? = some spR → isOrphanB spans spR = true →
      (∀ sp ∈ spans, isRootlessB sp = false) ∧
      (∀ i, i < jr → ∀ sp, spans[i]? = some sp → isOrphanB spans sp = false)) ∧
    ((∀ sp ∈ spans, isRootlessB sp = false ∧ isOrphanB spans sp = false) →
      t.rootSpan = some 0) := by
  obtain ⟨hne, _, hroot, _⟩ := buildTraceTree_some spans t h
  have he : spans.isEmpty = false := by
    cases spans with
    | nil => exact absurd rfl hne
    | cons a l => rfl
  refine ⟨?_, ?_, ?_⟩
  · intro hall
    rw [hroot, rootSel_char, lastRootlessIdx_all spans 0 hne hall]
    exact congrArg some (by omega)
  · intro jr spR hjr hget horph
    have hsel := hjr
    rw [hroot, rootSel_char] at hsel
    have horphF : isRootlessB spR = false := by
      rw [isOrphanB, Bool.and_eq_true] at horph
      have := horph.1
      cases hb : isRootlessB spR with
      | false => rfl
      | true => rw [hb] at this; cases this
    cases hL : lastRootlessIdx 0 spans with
    | some k =>
      exfalso
      rw [hL] at hsel
      have hk : k = jr := Option.some.inj hsel
      obtain ⟨_, sp', hget', hrl⟩ := lastRootlessIdx_some spans 0 k hL
      rw [Nat.sub_zero, hk, hget] at hget'
      obtain rfl := Option.some.inj hget'
      rw [horphF] at hrl
      cases hrl
    | none =>
      rw [hL] at hsel
      refine ⟨lastRootlessIdx_eq_none spans 0 hL, ?_⟩
      cases hF : firstOrphanIdx spans 0 spans with
      | some k =>
        rw [hF] at hsel
        have hk : k = jr := Option.some.inj hsel
        obtain ⟨_, _, hmin⟩ := firstOrphanIdx_some spans spans 0 k hF
        intro i hi sp hg
        exact hmin i (Nat.zero_le i) (by omega) sp (by simpa using hg)
      | none =>
        rw [hF, he] at hsel
        simp only [Bool.false_eq_true, if_false] at hsel
        have hjr0 : 0 = jr := Option.some.inj hsel
        intro i hi
        omega
  · intro hall
    rw [hroot, rootSel_char,
      lastRootlessIdx_none spans 0 (fun sp hsp => (hall sp hsp).1),
      firstOrphanIdx_none spans spans 0 (fun sp hsp => (hall sp hsp).2), he]
    rfl

/-- Witness for C3: last rootless span wins; the cyclic input falls
back to the first span; on the orphan input the orphan-root conclusion
applies. -/
theorem C3_witness :
    ((buildTraceTree c3rootless).map Trace.rootSpan) = some (some 1) ∧
    ((buildTraceTree c3cycle).map Trace.rootSpan) = some (some 0) ∧
    isRootlessB c3x = false := by
  refine ⟨?_, ?_, ?_⟩
  · have hsome : (buildTraceTree c3rootless).isSome = true := by with_unfolding_all rfl
    obtain ⟨t, ht⟩ := Option.isSome_iff_exists.mp hsome
    have hall : ∀ sp ∈ c3rootless, isRootlessB sp = true := by
      intro sp hsp
      rcases List.mem_cons.mp hsp with rfl | hsp'
      · rfl
      · rw [List.mem_singleton.mp hsp']
        rfl
    rw [ht, Option.map_some', (C3_root_selection c3rootless t ht).1 hall]
    rfl
  · have hsome : (buildTraceTree c3cycle).isSome = true := by with_unfolding_all rfl
    obtain ⟨t, ht⟩ := Option.isSome_iff_exists.mp hsome
    have hall : ∀ sp ∈ c3cycle, isRootlessB sp = false ∧ isOrphanB c3cycle sp = false := by
      intro sp hsp
      rcases List.mem_cons.mp hsp with rfl | hsp'
      · exact ⟨rfl, rfl⟩
      · rw [List.mem_singleton.mp hsp']
        exact ⟨rfl, rfl⟩
    rw [ht, Option.map_some', (C3_root_selection c3cycle t ht).2.2 hall]
  · have hsome : (buildTraceTree c3orphan).isSome = true := by with_unfolding_all rfl
    obtain ⟨t, ht⟩ := Option.isSome_iff_exists.mp hsome
    have hroot : t.rootSpan = some 0 := by
      rw [(buildTraceTree_some c3orphan t ht).2.2.1]
      rfl
    exact ((C3_root_selection c3orphan t ht).2.1 0 c3x hroot rfl rfl).1 c3x
      (List.mem_singleton_self c3x)

/-! ## Depth assignment (claim C7 infrastructure) -/

/-- Along a measure strictly decreasing on child edges, reach distance
is bounded. -/
theorem reachD_measure {ch : Nat → List Nat} {m : Nat → Nat}
    (hm : ∀ i j, j ∈ ch i → m j < m i) :
    ∀ {r x k}, ReachD ch r x k → m x + k ≤ m r := by
  intro r x k h
  induction h with
  | refl => omega
  | step h1 hj ih =>
    have := hm _ _ hj
    omega

/-- A positive-distance reach decomposes at its first step. -/
theorem reachD_first_step {ch : Nat → List Nat} {r : Nat} :
    ∀ {j k}, ReachD ch r j k →
      (j = r ∧ k = 0) ∨ ∃ c ∈ ch r, ReachD ch c j (k - 1) ∧ 1 ≤ k := by
  intro j k h
  induction h with
  | refl => exact Or.inl ⟨rfl, rfl⟩
  | step h1 hj ih =>
    rename_i i k' j'
    rcases ih with ⟨rfl, rfl⟩ | ⟨c, hc, hr, hk⟩
    · exact Or.inr ⟨j', hj, ReachD.refl, by omega⟩
    · refine Or.inr ⟨c, hc, ?_, by omega⟩
      have : k' - 1 + 1 = k' := by omega
      have hstep := ReachD.step hr hj
      rw [this] at hstep
      rw [show k' + 1 - 1 = k' from by omega]
      exact hstep

/-- A reach from a child extends to a reach from the parent. -/
theorem reachD_prepend {ch : Nat → List Nat} {i c : Nat} (hc : c ∈ ch i) :
    ∀ {j k}, ReachD ch c j k → ReachD ch i j (k + 1) := by
  intro j k h
  induction h with
  | refl => exact ReachD.step ReachD.refl hc
  | step h1 hj ih => exact ReachD.step ih hj

/-- With unique parents and a decreasing measure, the subtrees of two
distinct children of the same node are disjoint. -/
theorem reach_disjoint {ch : Nat → List Nat} {m : Nat → Nat}
    (hm : ∀ i j, j ∈ ch i → m j < m i)
    (hup : ∀ i i' j, j ∈ ch i → j ∈ ch i' → i = i') :
    ∀ {i c c'}, c ∈ ch i → c' ∈ ch i → c ≠ c' →
      ∀ {j k}, ReachD ch c j k → ∀ {k'}, ReachD ch c' j k' → False := by
  intro i c c' hc hc' hne j k h1
  induction h1 with
  | refl =>
    intro k' h2
    cases h2 with
    | refl => exact hne rfl
    | step h2' hj2 =>
      rename_i p k0
      have hpi : p = i := hup p i c hj2 hc
      rw [hpi] at h2'
      have := reachD_measure hm h2'
      have := hm i c' hc'
      omega
  | step h1' hj ih =>
    rename_i p k0 j'
    intro k' h2
    cases h2 with
    | refl =>
      have hpi : p = i := hup p i c' hj hc'
      rw [hpi] at h1'
      have := reachD_measure hm h1'
      have := hm i c hc
      omega
    | step h2' hj2 =>
      rename_i p' k1
      have hpp : p' = p := hup p' p j' hj2 hj
      rw [hpp] at h2'
      exact ih h2'

/-- Stores equal up to `depth` have the same children lists. -/
theorem childIdxsOf_eq_of_eraseDepth (st st1 : List Span)
    (h : st.map eraseDepth = st1.map eraseDepth) :
    ∀ i, childIdxsOf st i = childIdxsOf st1 i := by
  intro i
  have h2 : (st.map eraseDepth)[i]? = (st1.map eraseDepth)[i]? := by rw [h]
  rw [List.getElem?_map, List.getElem?_map] at h2
  rw [childIdxsOf, childIdxsOf]
  cases ha : st[i]? with
  | none =>
    cases hb : st1[i]? with
    | none => rfl
    | some spb => rw [ha, hb] at h2; cases h2
  | some spa =>
    cases hb : st1[i]? with
    | none => rw [ha, hb] at h2; cases h2
    | some spb =>
      rw [ha, hb] at h2
      have he : eraseDepth spa = eraseDepth spb := Option.some.inj h2
      have hch : (eraseDepth spa).children = (eraseDepth spb).children :=
        congrArg Span.children he
      have hch' : spa.children = spb.children := hch
      rw [Option.some_bind, Option.some_bind, hch']

/-- Stores equal up to `depth` have equal lengths. -/
theorem length_eq_of_eraseDepth (st st1 : List Span)
    (h : st.map eraseDepth = st1.map eraseDepth) : st.length = st1.length := by
  have := congrArg List.length h
  simpa using this

/-- The embedded `setDepth` writes the requested depth at a valid index. -/
theorem depthOf_setDepth_self (st : List Span) (i d : Nat) (hi : i < st.length) :
    depthOf (setDepth st i d) i = some d := by
  have hsp : st[i]? = some st[i] := List.getElem?_eq_getElem hi
  rw [setDepth, hsp, depthOf, List.getElem?_set]
  simp [hi]

/-- The embedded `setDepth` leaves other indices unchanged. -/
theorem depthOf_setDepth_ne (st : List Span) (i d j : Nat) (hij : i ≠ j) :
    depthOf (setDepth st i d) j = depthOf st j := by
  rw [setDepth]
  cases hsp : st[i]? with
  | none => rfl
  | some sp =>
    rw [depthOf, List.getElem?_set, if_neg hij]
    rfl

/-- Fuelled depth assignment, fully characterized on acyclic children
relations: nodes reachable from the start receive `d + distance`,
others keep their stored depth. -/
theorem calcDepth_spec (st1 : List Span) (m : Nat → Nat)
    (hm : ∀ i j, j ∈ childIdxsOf st1 i → m j < m i)
    (hbound : ∀ i j, j ∈ childIdxsOf st1 i → j < st1.length)
    (hup : ∀ i i' j, j ∈ childIdxsOf st1 i → j ∈ childIdxsOf st1 i' → i = i') :
    ∀ fuel i d st, i < st1.length → st.map eraseDepth = st1.map eraseDepth → m i < fuel →
      (∀ j k, ReachD (childIdxsOf st1) i j k →
        depthOf (calcDepth fuel st i d) j = some (d + k)) ∧
      (∀ j, (∀ k, ¬ ReachD (childIdxsOf st1) i j k) →
        depthOf (calcDepth fuel st i d) j = depthOf st j) := by
  intro fuel
  induction fuel with
  | zero => intro i d st _ _ hfuel; omega
  | succ fuel ih =>
    intro i d st hi hst hfuel
    have hst' : (setDepth st i d).map eraseDepth = st1.map eraseDepth := by
      rw [map_eraseDepth_setDepth]; exact hst
    have hch' : childIdxsOf (setDepth st i d) i = childIdxsOf st1 i :=
      childIdxsOf_eq_of_eraseDepth _ st1 hst' i
    have hfold : ∀ (cs : List Nat), (∀ c ∈ cs, c ∈ childIdxsOf st1 i) → ∀ (s : List Span),
        s.map eraseDepth = st1.map eraseDepth →
        ((cs.foldl (fun s c => calcDepth fuel s c (d + 1)) s).map eraseDepth =
          st1.map eraseDepth) ∧
        (∀ j, (∀ c ∈ cs, ∀ k, ¬ ReachD (childIdxsOf st1) c j k) →
          depthOf (cs.foldl (fun s c => calcDepth fuel s c (d + 1)) s) j = depthOf s j) ∧
        (∀ j c k, c ∈ cs → ReachD (childIdxsOf st1) c j k →
          depthOf (cs.foldl (fun s c => calcDepth fuel s c (d + 1)) s) j =
            some (d + 1 + k)) := by
      intro cs
      induction cs with
      | nil =>
        intro _ s hs
        exact ⟨hs, fun j _ => rfl, fun j c k hc => absurd hc (List.not_mem_nil c)⟩
      | cons c cs ihc =>
        intro hcs s hs
        have hc : c ∈ childIdxsOf st1 i := hcs c (List.mem_cons_self _ _)
        have hmc : m c < fuel := by
          have := hm i c hc
          omega
        have happ := ih c (d + 1) s (hbound i c hc) hs hmc
        have hs1 : (calcDepth fuel s c (d + 1)).map eraseDepth = st1.map eraseDepth := by
          rw [map_eraseDepth_calcDepth]; exact hs
        have ihl := ihc (fun c' hc' => hcs c' (List.mem_cons_of_mem _ hc'))
          (calcDepth fuel s c (d + 1)) hs1
        rw [List.foldl_cons]
        refine ⟨ihl.1, ?_, ?_⟩
        · intro j hnone
          rw [ihl.2.1 j (fun c' hc' k => hnone c' (List.mem_cons_of_mem _ hc') k)]
          exact happ.2 j (fun k => hnone c (List.mem_cons_self _ _) k)
        · intro j c0 k hc0 hreach
          rcases List.mem_cons.mp hc0 with rfl | hc0'
          · have hval : depthOf (calcDepth fuel s c0 (d + 1)) j = some (d + 1 + k) :=
              happ.1 j k hreach
            by_cases hrest : ∃ c' ∈ cs, ∃ k', ReachD (childIdxsOf st1) c' j k'
            · obtain ⟨c', hc', k', hr'⟩ := hrest
              by_cases hcc : c' = c0
              · subst hcc
                exact ihl.2.2 j c' k hc' hreach
              · exact absurd (reach_disjoint hm hup hc
                  (hcs c' (List.mem_cons_of_mem _ hc'))
                  (fun he => hcc (he.symm)) hreach hr') (by simp)
            · push_neg at hrest
              rw [ihl.2.1 j (fun c' hc' k' => hrest c' hc' k')]
              exact hval
          · exact ihl.2.2 j c0 k hc0' hreach
    have hredux : calcDepth (fuel + 1) st i d =
        (childIdxsOf st1 i).foldl (fun s c => calcDepth fuel s c (d + 1)) (setDepth st i d) := by
      rw [calcDepth, hch']
    have hmain := hfold (childIdxsOf st1 i) (fun c hcm => hcm) (setDepth st i d) hst'
    constructor
    · intro j k hreach
      rcases reachD_first_step hreach with ⟨rfl, rfl⟩ | ⟨c, hcm, hr, hk⟩
      · rw [hredux]
        have hnone : ∀ c ∈ childIdxsOf st1 j, ∀ k', ¬ ReachD (childIdxsOf st1) c j k' := by
          intro c hcm k' hr'
          have := reachD_measure hm hr'
          have := hm j c hcm
          omega
        rw [hmain.2.1 j hnone]
        have hilen : j < st.length := by
          rw [length_eq_of_eraseDepth st st1 hst]
          exact hi
        rw [depthOf_setDepth_self st j d hilen]
        exact congrArg some (by omega)
      · rw [hredux]
        have := hmain.2.2 j c (k - 1) hcm hr
        rw [this]
        exact congrArg some (by omega)
    · intro j hnone
      rw [hredux]
      have hnone' : ∀ c ∈ childIdxsOf st1 i, ∀ k, ¬ ReachD (childIdxsOf st1) c j k := by
        intro c hcm k hr
        exact hnone (k + 1) (reachD_prepend hcm hr)
      rw [hmain.2.1 j hnone']
      have hij : i ≠ j := by
        intro he
        exact hnone 0 (he ▸ ReachD.refl)
      exact depthOf_setDepth_ne st i d j hij

/-- Span-map lookups return indices in range. -/
theorem spanIdxAux_lt (sid : String) :
    ∀ (l : List Span) (j k : Nat), spanIdxAux sid j l = some k → j ≤ k ∧ k < j + l.length := by
  intro l
  induction l with
  | nil => intro j k h; cases h
  | cons sp rest ih =>
    intro j k h
    rw [spanIdxAux] at h
    cases hA : spanIdxAux sid (j + 1) rest with
    | some k' =>
      rw [hA] at h
      obtain rfl := Option.some.inj h
      have := ih (j + 1) k' hA
      simp only [List.length_cons]
      omega
    | none =>
      rw [hA] at h
      by_cases he : sp.spanId = sid
      · rw [if_pos he] at h
        obtain rfl := Option.some.inj h
        simp only [List.length_cons]
        omega
      · rw [if_neg he] at h
        cases h

/-- The span map returns indices below the store length. -/
theorem spanMapIdx_lt (store : List Span) (sid : String) (p : Nat)
    (h : spanMapIdx store sid = some p) : p < store.length := by
  have := spanIdxAux_lt sid store 0 p h
  omega

/-- The parent index of a child is uniquely determined. -/
theorem childTest_unique (store0 : List Span) (j i i' : Nat)
    (h1 : childTest store0 j i = true) (h2 : childTest store0 j i' = true) : i = i' := by
  rw [childTest] at h1 h2
  cases h0 : store0[j]? with
  | none => rw [h0] at h1; cases h1
  | some sp =>
    rw [h0] at h1 h2
    dsimp only at h1 h2
    cases hps : sp.parentSpanId with
    | none => rw [hps] at h1; cases h1
    | some ps =>
      rw [hps] at h1 h2
      dsimp only at h1 h2
      rw [Bool.and_eq_true] at h1 h2
      have hm1 : spanMapIdx store0 ps = some i := eq_of_beq h1.2
      have hm2 : spanMapIdx store0 ps = some i' := eq_of_beq h2.2
      exact Option.some.inj (hm1.symm.trans hm2)

/-- The initialized store has empty children lists everywhere. -/
theorem childIdxsOf_initChildren (spans : List Span) :
    ∀ i, childIdxsOf (initChildren spans) i = [] := by
  intro i
  rw [childIdxsOf, initChildren, List.getElem?_map]
  cases spans[i]? <;> rfl

/-- The embedded `pushChild` preserves the store length. -/
theorem length_pushChild (st : List Span) (p j : Nat) :
    (pushChild st p j).length = st.length := by
  rw [pushChild]
  cases st[p]? with
  | none => rfl
  | some sp => exact List.length_set ..

/-- The embedded `pushChild` at a valid index appends exactly one child entry. -/
theorem childIdxsOf_pushChild (st : List Span) (p j : Nat) (hp : p < st.length) :
    ∀ i, childIdxsOf (pushChild st p j) i =
      childIdxsOf st i ++ (if p = i then [j] else []) := by
  intro i
  have hsp : st[p]? = some st[p] := List.getElem?_eq_getElem hp
  rw [pushChild, hsp, childIdxsOf, List.getElem?_set]
  by_cases hpi : p = i
  · rw [if_pos hpi, if_pos (hpi ▸ hp), if_pos hpi, Option.some_bind]
    rw [childIdxsOf, ← hpi, hsp, Option.some_bind]
    cases hc : st[p].children <;> simp [hc]
  · rw [if_neg hpi, if_neg hpi, childIdxsOf, List.append_nil]

/-- The embedded `linkStep` preserves the store length. -/
theorem length_linkStep (store0 st : List Span) (j : Nat) :
    (linkStep store0 st j).length = st.length := by
  rw [linkStep]
  cases store0[j]? with
  | none => rfl
  | some sp =>
    dsimp only
    by_cases hr : isRootlessB sp = true
    · rw [if_pos hr]
    · rw [if_neg hr]
      cases spanMapIdx store0 (sp.parentSpanId.getD "") with
      | none => rfl
      | some p => exact length_pushChild st p j

/-- One linking step appends `j` to exactly the children list the
linking condition designates. -/
theorem childIdxsOf_linkStep (store0 st : List Span) (j : Nat)
    (hlen : st.length = store0.length) :
    ∀ i, childIdxsOf (linkStep store0 st j) i =
      childIdxsOf st i ++ (if childTest store0 j i then [j] else []) := by
  intro i
  rw [linkStep, childTest]
  cases h0 : store0[j]? with
  | none => simp
  | some sp =>
    dsimp only
    cases hps : sp.parentSpanId with
    | none =>
      dsimp only
      rw [show isRootlessB sp = true from by rw [isRootlessB, hps]]
      simp
    | some ps =>
      dsimp only
      by_cases hpse : ps = ""
      · rw [show isRootlessB sp = true from by rw [isRootlessB, hps]; simp [hpse]]
        simp [hpse]
      · rw [show isRootlessB sp = false from by rw [isRootlessB, hps]; simp [hpse]]
        simp only [Bool.false_eq_true, if_false, Option.getD_some]
        cases hM : spanMapIdx store0 ps with
        | none => simp
        | some p =>
          have hp : p < st.length := hlen ▸ spanMapIdx_lt store0 ps p hM
          rw [childIdxsOf_pushChild st p j hp i]
          simp only [hpse, decide_eq_true_eq]
          by_cases hpi : p = i
          · rw [if_pos hpi, if_pos (by simp [hpi])]
          · rw [if_neg hpi, if_neg (by simp [hpi])]

/-- The linking fold, characterized: children lists grow by exactly the
indices passing the linking condition, in input order. -/
theorem linkFold_char (store0 : List Span) :
    ∀ (l : List Nat) (st : List Span), st.length = store0.length →
      (l.foldl (linkStep store0) st).length = store0.length ∧
      ∀ i, childIdxsOf (l.foldl (linkStep store0) st) i =
        childIdxsOf st i ++ l.filter (fun j => childTest store0 j i) := by
  intro l
  induction l with
  | nil =>
    intro st hlen
    exact ⟨hlen, fun i => by simp⟩
  | cons j rest ih =>
    intro st hlen
    have hlen1 : (linkStep store0 st j).length = store0.length := by
      rw [length_linkStep]; exact hlen
    obtain ⟨hl, hc⟩ := ih (linkStep store0 st j) hlen1
    rw [List.foldl_cons]
    refine ⟨hl, fun i => ?_⟩
    rw [hc i, childIdxsOf_linkStep store0 st j hlen i, List.filter_cons]
    by_cases ht : childTest store0 j i = true
    · rw [if_pos ht, if_pos (by simp [ht])]
      simp
    · rw [if_neg ht, if_neg (by simpa using ht)]
      simp

/-- The linked store, characterized. -/
theorem linkedStore_char (spans : List Span) :
    (linkedStore spans).length = spans.length ∧
    ∀ i, childIdxsOf (linkedStore spans) i =
      (List.range (initChildren spans).length).filter
        (fun j => childTest (initChildren spans) j i) := by
  obtain ⟨hl, hc⟩ := linkFold_char (initChildren spans)
    (List.range (initChildren spans).length) (initChildren spans) rfl
  constructor
  · rw [linkedStore, hl, initChildren, List.length_map]
  · intro i
    rw [linkedStore, hc i, childIdxsOf_initChildren]
    simp

/-- Non-empty inputs always yield a selected root. -/
theorem rootSel_isSome (spans : List Span) (hne : spans ≠ []) :
    (rootSel (initChildren spans)).isSome = true := by
  rw [rootSel]
  cases rootScanAux (initChildren spans) 0 none (initChildren spans) with
  | some r => rfl
  | none =>
    have : (initChildren spans).isEmpty = false := by
      cases spans with
      | nil => exact absurd rfl hne
      | cons a l => rfl
    rw [this]
    rfl

/-- The selected root is an index into the input. -/
theorem rootSel_lt (spans : List Span) (r : Nat) (hne : spans ≠ [])
    (h : rootSel (initChildren spans) = some r) : r < spans.length := by
  rw [rootSel_char] at h
  cases hL : lastRootlessIdx 0 spans with
  | some k =>
    rw [hL] at h
    obtain rfl := Option.some.inj h
    obtain ⟨_, sp, hget, _⟩ := lastRootlessIdx_some spans 0 k hL
    rw [Nat.sub_zero] at hget
    exact (List.getElem?_eq_some_iff.mp hget).1
  | none =>
    rw [hL] at h
    cases hF : firstOrphanIdx spans 0 spans with
    | some k =>
      rw [hF] at h
      obtain rfl := Option.some.inj h
      obtain ⟨_, ⟨sp, hget, _⟩, _⟩ := firstOrphanIdx_some spans spans 0 k hF
      rw [Nat.sub_zero] at hget
      exact (List.getElem?_eq_some_iff.mp hget).1
    | none =>
      rw [hF] at h
      have he : spans.isEmpty = false := by
        cases spans with
        | nil => exact absurd rfl hne
        | cons a l => rfl
      rw [he] at h
      simp only [Bool.false_eq_true, if_false] at h
      obtain rfl := Option.some.inj h
      exact List.length_pos.mpr hne

/-- C7: on any input whose built parent/child relation is acyclic
(witnessed by a measure strictly decreasing along child edges), the
chosen root carries depth 0 and every child reachable from the root
carries its parent's depth plus 1. -/
theorem C7_depth_assignment (spans : List Span) (t : Trace)
    (h : buildTraceTree spans = some t)
    (hacyc : ∃ m : Nat → Nat, ∀ i j, j ∈ childIdxsOf t.spans i → m j < m i) :
    ∃ r, t.rootSpan = some r ∧ depthOf t.spans r = some 0 ∧
      ∀ i j, (∃ k, ReachD (childIdxsOf t.spans) r i k) → j ∈ childIdxsOf t.spans i →
        ∃ di, depthOf t.spans i = some di ∧ depthOf t.spans j = some (di + 1) := by
  obtain ⟨m, hm⟩ := hacyc
  obtain ⟨hne, hsp, hroot, _⟩ := buildTraceTree_some spans t h
  obtain ⟨r, hr⟩ := Option.isSome_iff_exists.mp (rootSel_isSome spans hne)
  have hrlt : r < spans.length := rootSel_lt spans r hne hr
  have hts : t.spans = calcDepth (linkedStore spans).length (linkedStore spans) r 0 := by
    rw [hsp, builtStore, hr]
  obtain ⟨hlen1, hchar⟩ := linkedStore_char spans
  have hst1 : t.spans.map eraseDepth = (linkedStore spans).map eraseDepth := by
    rw [hts, map_eraseDepth_calcDepth]
  have hchfun : childIdxsOf t.spans = childIdxsOf (linkedStore spans) :=
    funext (childIdxsOf_eq_of_eraseDepth _ _ hst1)
  rw [hchfun] at hm ⊢
  have hbound : ∀ i j, j ∈ childIdxsOf (linkedStore spans) i →
      j < (linkedStore spans).length := by
    intro i j hj
    rw [hchar i] at hj
    have hrange := (List.mem_filter.mp hj).1
    have hn : (initChildren spans).length = spans.length := by
      rw [initChildren, List.length_map]
    have := List.mem_range.mp hrange
    omega
  have hup : ∀ i i' j, j ∈ childIdxsOf (linkedStore spans) i →
      j ∈ childIdxsOf (linkedStore spans) i' → i = i' := by
    intro i i' j h1 h2
    rw [hchar i] at h1
    rw [hchar i'] at h2
    exact childTest_unique (initChildren spans) j i i'
      (by simpa using List.of_mem_filter h1) (by simpa using List.of_mem_filter h2)
  have hrank : ∃ m2 : Nat → Nat,
      (∀ i j, j ∈ childIdxsOf (linkedStore spans) i → m2 j < m2 i) ∧
      m2 r < (linkedStore spans).length := by
    refine ⟨fun x =>
      ((Finset.range (linkedStore spans).length).filter (fun y => m y < m x)).card, ?_, ?_⟩
    · intro i j hj
      apply Finset.card_lt_card
      rw [Finset.ssubset_def]
      constructor
      · intro y hy
        rw [Finset.mem_filter] at hy ⊢
        exact ⟨hy.1, hy.2.trans (hm i j hj)⟩
      · intro hsub
        have hjmem : j ∈ (Finset.range (linkedStore spans).length).filter
            (fun y => m y < m i) := by
          rw [Finset.mem_filter, Finset.mem_range]
          exact ⟨hbound i j hj, hm i j hj⟩
        have hback := hsub hjmem
        rw [Finset.mem_filter] at hback
        exact absurd hback.2 (lt_irrefl _)
    · have hrN : r < (linkedStore spans).length := by omega
      have hsub : (Finset.range (linkedStore spans).length).filter (fun y => m y < m r) ⊆
          (Finset.range (linkedStore spans).length).erase r := by
        intro y hy
        rw [Finset.mem_filter] at hy
        rw [Finset.mem_erase]
        refine ⟨?_, hy.1⟩
        intro hyr
        rw [hyr] at hy
        exact absurd hy.2 (lt_irrefl _)
      have hcard := Finset.card_le_card hsub
      rw [Finset.card_erase_of_mem (Finset.mem_range.mpr hrN), Finset.card_range] at hcard
      exact lt_of_le_of_lt hcard (by omega)
  obtain ⟨m2, hm2, hm2r⟩ := hrank
  have hspec := calcDepth_spec (linkedStore spans) m2 hm2 hbound hup
    (linkedStore spans).length r 0 (linkedStore spans) (by omega) rfl hm2r
  refine ⟨r, hroot.trans hr, ?_, ?_⟩
  · have h0 := hspec.1 r 0 ReachD.refl
    rw [hts]
    simpa using h0
  · intro i j hreach hj
    obtain ⟨k, hk⟩ := hreach
    refine ⟨k, ?_, ?_⟩
    · have h1 := hspec.1 i k hk
      rw [hts]
      simpa using h1
    · have h2 := hspec.1 j (k + 1) (ReachD.step hk hj)
      rw [hts]
      simpa using h2

/-- Witness for C7: on the concrete parent/child pair, the root gets
depth 0 and the child depth 1. -/
theorem C7_witness :
    ((buildTraceTree c7spans).map fun t => (depthOf t.spans 0, depthOf t.spans 1)) =
      some (some 0, some 1) := by
  have hsome : (buildTraceTree c7spans).isSome = true := by with_unfolding_all rfl
  obtain ⟨t, ht⟩ := Option.isSome_iff_exists.mp hsome
  have hts : t.spans = builtStore c7spans := (buildTraceTree_some c7spans t ht).2.1
  have hch0 : childIdxsOf (builtStore c7spans) 0 = [1] := by with_unfolding_all rfl
  have hacyc : ∃ m : Nat → Nat, ∀ i j, j ∈ childIdxsOf t.spans i → m j < m i := by
    refine ⟨fun x => if x = 0 then 1 else 0, ?_⟩
    intro i j hj
    rw [hts] at hj
    by_cases hi0 : i = 0
    · subst hi0
      rw [hch0] at hj
      rw [List.mem_singleton.mp hj]
      norm_num
    · exfalso
      rcases Nat.lt_or_ge i 2 with hlt | hge
      · interval_cases i
        · exact hi0 rfl
        · rw [show childIdxsOf (builtStore c7spans) 1 = [] from by with_unfolding_all rfl] at hj
          exact absurd hj (List.not_mem_nil j)
      · have hlen : (builtStore c7spans).length = 2 := by with_unfolding_all rfl
        have hnone : (builtStore c7spans)[i]? = none :=
          List.getElem?_eq_none (by rw [hlen]; omega)
        rw [childIdxsOf, hnone] at hj
        exact absurd hj (List.not_mem_nil j)
  obtain ⟨r, hr, hd0, hstep⟩ := C7_depth_assignment c7spans t ht hacyc
  have hr0 : r = 0 := by
    have hroot : t.rootSpan = some 0 := by
      rw [(buildTraceTree_some c7spans t ht).2.2.1]
      with_unfolding_all rfl
    rw [hroot] at hr
    exact (Option.some.inj hr).symm
  subst hr0
  have hedge : 1 ∈ childIdxsOf t.spans 0 := by
    rw [hts, hch0]
    exact List.mem_singleton_self 1
  obtain ⟨d0, hdi, hdj⟩ := hstep 0 1 ⟨0, ReachD.refl⟩ hedge
  have hd00 : d0 = 0 := Option.some.inj (hdi.symm.trans hd0)
  rw [ht, Option.map_some']
  rw [hd0, hdj, hd00]

end TraceViz
